import Mathlib

/-!
Verification of the Signal feed-aggregator core (Go) against its
natural-language specification.

This file shallowly embeds the aggregation-and-archival pipeline:

* `entry` package: `Entry`, `GenerateID`, `Feed.Deduplicate`,
  `mergeDiscussions`, `Feed.SortByDate`, `Feed.AddEntry`, `Feed.ToJSONFeed`;
* `monthly` package: `normalizeURL`, `MergeEntries`, `MonthKey`,
  `LatestMonths`;
* `priority` package: `Links.ToEntries`;
* `api` package: `Slugify`, `filterLatestMonths`, the `by-month`,
  `by-source` and `by-tag` index builders;
* `aggregator` package: `FetchFeed`, `FetchAllWithProgress`,
  `truncateHTML`, `uniqueStrings`, and `opml.FlattenFeeds`;
* `jsonfeed` package: `NewFeed`, the JSON Feed record, and the byte
  output of `json.MarshalIndent` for that record.

Modelling conventions:

* Go strings are `List Char` (`Str`).  `strings.ToLower` is modelled on
  ASCII letters (the URLs, month keys and slugs the claims are about are
  ASCII); `strings.TrimRight(s, "/")` drops every trailing `'/'`.
* `time.Time` is modelled at second granularity in UTC as a normalized
  civil timestamp (`GoTime`); `time.Time.After/Before` compare the
  corresponding absolute second count, `Format(time.RFC3339)` prints
  `YYYY-MM-DDTHH:MM:SSZ`, and `AddDate` normalizes like Go's `Date`.
* `crypto/sha256` is embedded bit-faithfully on byte lists, with 32-bit
  words represented as `Nat` reduced `% 2^32`.
* Effects are explicit parameters: `time.Now()` becomes a `GoTime`
  argument, the network becomes an oracle `Outline → Except Str GFeed`,
  and the two genuinely nondeterministic library behaviours the code
  relies on are modelled relationally by their documented contracts:
  `sort.Slice` (which does not guarantee stability) as `SortedRun`, and
  Go map iteration as quantification over permutations.
-/

set_option maxHeartbeats 1000000

namespace Signal

/-- Go strings, modelled as lists of characters. -/
abbrev Str := List Char

/-- ASCII lower-casing of one character, the fragment of Go
`strings.ToLower` relevant to the URLs, months and slugs in scope
(codepoints 65-90 are `'A'`-`'Z'`). -/
def lowerChar (c : Char) : Char :=
  if 65 ≤ c.toNat ∧ c.toNat ≤ 90 then Char.ofNat (c.toNat + 32) else c

/-- Go `strings.ToLower` (ASCII fragment). -/
def toLowerStr (s : Str) : Str := s.map lowerChar

/-- Go `strings.TrimRight(s, "/")`: remove every trailing slash. -/
def trimRightSlash (s : Str) : Str :=
  ((s.reverse).dropWhile (fun c => c = '/')).reverse

/-- The URL canonicalization used by both `entry.Feed.Deduplicate`
(`strings.ToLower(strings.TrimRight(e.URL, "/"))`) and
`monthly.normalizeURL`. -/
def normalizeURL (u : Str) : Str := toLowerStr (trimRightSlash u)

/-! ## Civil time (Go `time.Time`, UTC, second granularity) -/

/-- A normalized UTC civil timestamp. Go's zero `time.Time` is
January 1, year 1, 00:00:00 UTC. -/
structure GoTime where
  year : Int
  month : Int
  day : Int
  hour : Int
  minute : Int
  second : Int
deriving DecidableEq

/-- Go's zero `time.Time`. -/
def GoTime.zero : GoTime := ⟨1, 1, 1, 0, 0, 0⟩

/-- Go `time.Time.IsZero`. -/
def GoTime.isZero (t : GoTime) : Bool := t = GoTime.zero

/-- Days from the civil epoch 1970-01-01 (Howard Hinnant's
`days_from_civil`, with floor division). -/
def civilToDays (y m d : Int) : Int :=
  let y' := if m ≤ 2 then y - 1 else y
  let era := y'.fdiv 400
  let yoe := y' - era * 400
  let mp := if m > 2 then m - 3 else m + 9
  let doy := (153 * mp + 2).fdiv 5 + d - 1
  let doe := yoe * 365 + yoe.fdiv 4 - yoe.fdiv 100 + doy
  era * 146097 + doe - 719468

/-- Civil date from a day count (Hinnant's `civil_from_days`). -/
def daysToCivil (z : Int) : Int × Int × Int :=
  let z' := z + 719468
  let era := z'.fdiv 146097
  let doe := z' - era * 146097
  let yoe := (doe - doe.fdiv 1460 + doe.fdiv 36524 - doe.fdiv 146096).fdiv 365
  let y := yoe + era * 400
  let doy := doe - (365 * yoe + yoe.fdiv 4 - yoe.fdiv 100)
  let mp := (5 * doy + 2).fdiv 153
  let d := doy - (153 * mp + 2).fdiv 5 + 1
  let m := if mp < 10 then mp + 3 else mp - 9
  (if m ≤ 2 then y + 1 else y, m, d)

/-- Absolute seconds since 1970-01-01T00:00:00Z. Go's `After`, `Before`
and `Add` all act on this quantity. -/
def GoTime.toSec (t : GoTime) : Int :=
  86400 * civilToDays t.year t.month t.day
    + 3600 * t.hour + 60 * t.minute + t.second

/-- Normalized time from an absolute second count. -/
def timeFromSec (s : Int) : GoTime :=
  let days := s.fdiv 86400
  let rem := s.emod 86400
  let c := daysToCivil days
  ⟨c.1, c.2.1, c.2.2, rem.fdiv 3600, (rem.emod 3600).fdiv 60, rem.emod 60⟩

/-- Go `time.Date(y, mo, d, hh, mi, ss, 0, time.UTC)`: months are folded
into years, then every remaining field is normalized through the
absolute second count, exactly as Go normalizes through `absDate`. -/
def goDate (y mo d hh mi ss : Int) : GoTime :=
  let m0 := mo - 1
  let y' := y + m0.fdiv 12
  let m' := m0.emod 12 + 1
  timeFromSec (86400 * (civilToDays y' m' 1 + (d - 1))
    + 3600 * hh + 60 * mi + ss)

/-- Go `time.Time.AddDate(years, months, days)`. -/
def GoTime.addDate (t : GoTime) (years months days : Int) : GoTime :=
  goDate (t.year + years) (t.month + months) (t.day + days)
    t.hour t.minute t.second

/-- Go `a.After(b)`. -/
def GoTime.after (a b : GoTime) : Bool := a.toSec > b.toSec

/-- Go `a.Before(b)`. -/
def GoTime.before (a b : GoTime) : Bool := a.toSec < b.toSec

/-- Decimal digits, most significant first, accumulated from the least
significant end; the fuel argument (at least the number itself) keeps
the recursion structural. -/
def natDigitsAux : Nat → Nat → List Nat → List Nat
  | _, 0, acc => acc
  | 0, _ + 1, acc => acc
  | fuel + 1, n + 1, acc => natDigitsAux fuel ((n + 1) / 10) ((n + 1) % 10 :: acc)

/-- Decimal digits of a natural number, most significant first
(empty for zero; `padNum` supplies the zeros). -/
def natDigits (n : Nat) : List Nat := natDigitsAux n n []

/-- Character of a decimal digit. -/
def digitChar (d : Nat) : Char := Char.ofNat (48 + d % 10)

/-- Zero-padded fixed-width decimal rendering of a nonnegative `Int`
(how Go's `Format` renders the `2006`, `01`, `02`, `15`, `04`, `05`
reference fields). -/
def padNum (width : Nat) (n : Int) : Str :=
  let ds := natDigits n.toNat
  let pad := width - ds.length
  List.replicate pad '0' ++ ds.map digitChar

/-- Go `t.Format("2006-01")`, the month key of `monthly.MonthKey` and of
the api materializer's groupings. -/
def monthKeyOf (t : GoTime) : Str :=
  padNum 4 t.year ++ ['-'] ++ padNum 2 t.month

/-- Go `t.Format(time.RFC3339)` for a UTC time. -/
def rfc3339 (t : GoTime) : Str :=
  padNum 4 t.year ++ ['-'] ++ padNum 2 t.month ++ ['-'] ++ padNum 2 t.day
    ++ ['T'] ++ padNum 2 t.hour ++ [':'] ++ padNum 2 t.minute
    ++ [':'] ++ padNum 2 t.second ++ ['Z']

/-! ## SHA-256 (`crypto/sha256`) and hex (`encoding/hex`) -/

/-- Reduction to a 32-bit word. -/
def w32 (n : Nat) : Nat := n % 4294967296

/-- Right rotation of a 32-bit word. -/
def rotr (n x : Nat) : Nat := w32 ((x >>> n) ||| (x <<< (32 - n)))

/-- SHA-256 big Sigma 0. -/
def bsig0 (x : Nat) : Nat := (rotr 2 x) ^^^ (rotr 13 x) ^^^ (rotr 22 x)

/-- SHA-256 big Sigma 1. -/
def bsig1 (x : Nat) : Nat := (rotr 6 x) ^^^ (rotr 11 x) ^^^ (rotr 25 x)

/-- SHA-256 small sigma 0. -/
def ssig0 (x : Nat) : Nat := (rotr 7 x) ^^^ (rotr 18 x) ^^^ (x >>> 3)

/-- SHA-256 small sigma 1. -/
def ssig1 (x : Nat) : Nat := (rotr 17 x) ^^^ (rotr 19 x) ^^^ (x >>> 10)

/-- SHA-256 choice function. -/
def chF (x y z : Nat) : Nat := (x &&& y) ^^^ ((x ^^^ 4294967295) &&& z)

/-- SHA-256 majority function. -/
def majF (x y z : Nat) : Nat := (x &&& y) ^^^ (x &&& z) ^^^ (y &&& z)

/-- The 64 SHA-256 round constants. -/
def shaK : List Nat :=
  [1116352408, 1899447441, 3049323471, 3921009573,
   961987163, 1508970993, 2453635748, 2870763221,
   3624381080, 310598401, 607225278, 1426881987,
   1925078388, 2162078206, 2614888103, 3248222580,
   3835390401, 4022224774, 264347078, 604807628,
   770255983, 1249150122, 1555081692, 1996064986,
   2554220882, 2821834349, 2952996808, 3210313671,
   3336571891, 3584528711, 113926993, 338241895,
   666307205, 773529912, 1294757372, 1396182291,
   1695183700, 1986661051, 2177026350, 2456956037,
   2730485921, 2820302411, 3259730800, 3345764771,
   3516065817, 3600352804, 4094571909, 275423344,
   430227734, 506948616, 659060556, 883997877,
   958139571, 1322822218, 1537002063, 1747873779,
   1955562222, 2024104815, 2227730452, 2361852424,
   2428436474, 2756734187, 3204031479, 3329325298]

/-- Big-endian bytes of a 64-bit length field. -/
def be64 (n : Nat) : List Nat :=
  [(n >>> 56) % 256, (n >>> 48) % 256, (n >>> 40) % 256, (n >>> 32) % 256,
   (n >>> 24) % 256, (n >>> 16) % 256, (n >>> 8) % 256, n % 256]

/-- Big-endian bytes of a 32-bit word. -/
def be32 (n : Nat) : List Nat :=
  [(n >>> 24) % 256, (n >>> 16) % 256, (n >>> 8) % 256, n % 256]

/-- SHA-256 message padding. -/
def shaPad (msg : List Nat) : List Nat :=
  let len := msg.length
  let zeros := (64 + 55 - len % 64) % 64
  msg ++ [128] ++ List.replicate zeros 0 ++ be64 (8 * len)

/-- Group bytes into big-endian 32-bit words. -/
def toWords : List Nat → List Nat
  | a :: b :: c :: d :: rest => (((a * 256 + b) * 256 + c) * 256 + d) :: toWords rest
  | _ => []

/-- Group words into 16-word blocks. -/
def toBlocks : List Nat → List (List Nat)
  | [] => []
  | w :: ws => (w :: ws.take 15) :: toBlocks (ws.drop 15)
termination_by l => l.length
decreasing_by simp; omega

/-- One message-schedule extension step: append word `w[n]` computed
from `w[n-2]`, `w[n-7]`, `w[n-15]`, `w[n-16]`. -/
def schedStep (ws : List Nat) : List Nat :=
  let n := ws.length
  ws ++ [w32 (ssig1 (ws.getD (n - 2) 0) + ws.getD (n - 7) 0
    + ssig0 (ws.getD (n - 15) 0) + ws.getD (n - 16) 0)]

/-- Expand a 16-word block to the 64-word message schedule. -/
def schedule (block : List Nat) : List Nat :=
  (List.range 48).foldl (fun ws _ => schedStep ws) block

/-- The eight 32-bit words of SHA-256 working state. -/
structure H8 where
  a : Nat
  b : Nat
  c : Nat
  d : Nat
  e : Nat
  f : Nat
  g : Nat
  h : Nat
deriving DecidableEq

/-- One SHA-256 compression round. -/
def shaRound (s : H8) (kw : Nat × Nat) : H8 :=
  let t1 := w32 (s.h + bsig1 s.e + chF s.e s.f s.g + kw.1 + kw.2)
  let t2 := w32 (bsig0 s.a + majF s.a s.b s.c)
  ⟨w32 (t1 + t2), s.a, s.b, s.c, w32 (s.d + t1), s.e, s.f, s.g⟩

/-- Compress one 16-word block into the running hash state. -/
def compressBlock (h : H8) (block : List Nat) : H8 :=
  let s := (shaK.zip (schedule block)).foldl shaRound h
  ⟨w32 (h.a + s.a), w32 (h.b + s.b), w32 (h.c + s.c), w32 (h.d + s.d),
   w32 (h.e + s.e), w32 (h.f + s.f), w32 (h.g + s.g), w32 (h.h + s.h)⟩

/-- The SHA-256 initial hash state. -/
def shaH0 : H8 :=
  ⟨1779033703, 3144134277, 1013904242, 2773480762,
   1359893119, 2600822924, 528734635, 1541459225⟩

/-- Go `sha256.Sum256`: the 32-byte SHA-256 digest of a byte list. -/
def sha256 (msg : List Nat) : List Nat :=
  let fin := (toBlocks (toWords (shaPad msg))).foldl compressBlock shaH0
  be32 fin.a ++ be32 fin.b ++ be32 fin.c ++ be32 fin.d
    ++ be32 fin.e ++ be32 fin.f ++ be32 fin.g ++ be32 fin.h

/-- Lower-case hex digit. -/
def hexDigit (n : Nat) : Char :=
  if n < 10 then Char.ofNat (48 + n) else Char.ofNat (87 + n)

/-- Two hex digits of a byte. -/
def hexByte (b : Nat) : Str := [hexDigit (b / 16 % 16), hexDigit (b % 16)]

/-- Go `hex.EncodeToString` on a byte list. -/
def hexEncode (bs : List Nat) : Str := bs.flatMap hexByte

/-- UTF-8 bytes of one character (Go `[]byte(string)` encoding). -/
def utf8Char (c : Char) : List Nat :=
  let n := c.toNat
  if n < 128 then [n]
  else if n < 2048 then [192 + n / 64, 128 + n % 64]
  else if n < 65536 then [224 + n / 4096, 128 + n / 64 % 64, 128 + n % 64]
  else [240 + n / 262144, 128 + n / 4096 % 64, 128 + n / 64 % 64, 128 + n % 64]

/-- UTF-8 bytes of a string. -/
def utf8Bytes (s : Str) : List Nat := s.flatMap utf8Char

/-! ## The `entry` package -/

/-- Source of `entry.Source`: platform metadata of an entry. -/
structure SourceMeta where
  platform : Str
  author : Str
  postID : Str
deriving DecidableEq

/-- Source of `entry.Discussion`: a link to a discussion forum. -/
structure Discussion where
  platform : Str
  url : Str
  id : Str
  score : Int
  comments : Int
deriving DecidableEq

/-- Source of `entry.FeedMeta`: metadata about the source feed. -/
structure FeedMeta where
  title : Str
  url : Str
  iconURL : Str
deriving DecidableEq

/-- Source of `entry.Entry`. -/
structure Entry where
  id : Str
  title : Str
  url : Str
  author : Str
  date : GoTime
  feed : FeedMeta
  tags : List Str
  summary : Str
  content : Str
  image : Str
  imageAlt : Str
  source : Option SourceMeta
  isPriority : Bool
  priorityRank : Int
  discussions : List Discussion
deriving DecidableEq

/-- Source of `entry.GenerateID`:
`hex.EncodeToString(sha256.Sum256([]byte(url + date.Format(time.RFC3339)))[:8])`. -/
def generateID (url : Str) (date : GoTime) : Str :=
  hexEncode ((sha256 (utf8Bytes (url ++ rfc3339 date))).take 8)

/-- Source of `entry.Feed`. -/
structure Feed where
  generated : GoTime
  title : Str
  description : Str
  homeURL : Str
  entries : List Entry
deriving DecidableEq

/-- Source of `entry.Feed.AddEntry`. -/
def addEntry (f : Feed) (e : Entry) : Feed :=
  let e' := if e.id = [] then { e with id := generateID e.url e.date } else e
  { f with entries := f.entries ++ [e'] }

/-- The deduplication key of an entry: its canonicalized URL
(`strings.ToLower(strings.TrimRight(e.URL, "/"))` in `Feed.Deduplicate`). -/
def entryKey (e : Entry) : Str := normalizeURL e.url

/-- Source of `entry.mergeDiscussions`: append each incoming discussion
whose URL has not been seen among the existing ones or among those
already appended. -/
def mergeDiscussions (existing incoming : List Discussion) : List Discussion :=
  incoming.foldl
    (fun result d =>
      if result.any (fun d2 => d2.url = d.url) then result else result ++ [d])
    existing

/-- The merge `Feed.Deduplicate` applies to the retained entry
`unique[idx]` when a duplicate `e` of it is encountered: discussions are
unioned when the duplicate carries any, and a priority duplicate
promotes a non-priority survivor, which then takes the duplicate's
rank. -/
def mergeDup (old e : Entry) : Entry :=
  let old1 :=
    if e.discussions.length > 0 then
      { old with discussions := mergeDiscussions old.discussions e.discussions }
    else old
  if e.isPriority && !old1.isPriority then
    { old1 with isPriority := true, priorityRank := e.priorityRank }
  else old1

/-- One iteration of the `Feed.Deduplicate` loop.  The Go code keeps a
map `seen : canonical URL → index in unique`; since the entries of
`unique` have pairwise distinct keys and their URLs are never modified,
that map sends a key to the index of the unique entry of `unique`
carrying it, which `findIdx?` recovers. -/
def dedupStep (unique : List Entry) (e : Entry) : List Entry :=
  match unique.findIdx? (fun u => entryKey u = entryKey e) with
  | some i => unique.modify (fun u => mergeDup u e) i
  | none => unique ++ [e]

/-- Source of `entry.Feed.Deduplicate`, as the underlying entry-list
transformation. -/
def dedup (entries : List Entry) : List Entry := entries.foldl dedupStep []

/-- The comparator of `entry.Feed.SortByDate`:
`f.Entries[i].Date.After(f.Entries[j].Date)`. -/
def lessByDate (a b : Entry) : Bool := a.date.after b.date

/-- Contract of Go `sort.Slice(x, less)` (documented as NOT guaranteed
stable): the output is a permutation of the input that is sorted with
respect to `less`, i.e. no element is `less` than its predecessor.
`entry.Feed.SortByDate` and the index sorts of the api materializer are
modelled by this relation. -/
def SortedRun (less : α → α → Bool) (input output : List α) : Prop :=
  input.Perm output ∧ output.Chain' (fun a b => less b a = false)

/-- Executable check of the sortedness half of `SortedRun`. -/
def chainOk (less : α → α → Bool) : List α → Bool
  | a :: b :: rest => (!(less b a)) && chainOk less (b :: rest)
  | _ => true

instance [DecidableEq α] (less : α → α → Bool) (input output : List α) :
    Decidable (SortedRun less input output) :=
  decidable_of_iff (input.Perm output ∧ chainOk less output = true) (by
    have key : ∀ l : List α,
        (chainOk less l = true ↔ l.Chain' (fun a b => less b a = false)) := by
      intro l
      induction l with
      | nil => simp [chainOk]
      | cons a l ih =>
        cases l with
        | nil => simp [chainOk]
        | cons b l2 =>
          rw [List.chain'_cons, ← ih]
          simp [chainOk, Bool.and_eq_true, Bool.not_eq_true']
    exact and_congr_right (fun _ => key output))

/-- Executable check for `List.Pairwise`. -/
def pairwiseOk (r : α → α → Prop) [DecidableRel r] : List α → Bool
  | [] => true
  | a :: l => (l.all fun b => decide (r a b)) && pairwiseOk r l

/-- A structurally reducible `Decidable` instance for `List.Pairwise`. -/
def decPairwise (r : α → α → Prop) [DecidableRel r] (l : List α) :
    Decidable (l.Pairwise r) :=
  decidable_of_iff (pairwiseOk r l = true) (by
    induction l with
    | nil => simp [pairwiseOk]
    | cons a l ih => simp [pairwiseOk, List.pairwise_cons, ih, List.all_eq_true])

/-! ## The `priority` package -/

/-- Source of `priority.Link`.  `priority.Source` and
`priority.Discussion` have exactly the fields of `entry.Source` and
`entry.Discussion`, and `ToEntries` copies them field by field, so the
model shares the `SourceMeta` and `Discussion` types. -/
structure PLink where
  title : Str
  url : Str
  author : Str
  date : GoTime
  tags : List Str
  summary : Str
  contentHTML : Str
  rank : Int
  feedTitle : Str
  feedURL : Str
  image : Str
  imageAlt : Str
  source : Option SourceMeta
  discussions : List Discussion
deriving DecidableEq

/-- Source of `priority.Links`. -/
structure PLinks where
  title : Str
  description : Str
  period : Str
  updated : GoTime
  links : List PLink
deriving DecidableEq

/-- The entry `priority.Links.ToEntries` builds from one link: an absent
or zero date falls back to the collection's `Updated` timestamp, the
identifier hashes the link URL with the effective date, and the entry is
always priority-flagged. -/
def plinkToEntry (updated : GoTime) (link : PLink) : Entry :=
  let date := if link.date.isZero then updated else link.date
  { id := generateID link.url date
    title := link.title
    url := link.url
    author := link.author
    date := date
    feed := ⟨link.feedTitle, link.feedURL, []⟩
    tags := link.tags
    summary := link.summary
    content := link.contentHTML
    image := link.image
    imageAlt := link.imageAlt
    source := link.source
    isPriority := true
    priorityRank := link.rank
    discussions := link.discussions }

/-- Source of `priority.Links.ToEntries`. -/
def toEntries (l : PLinks) : List Entry := l.links.map (plinkToEntry l.updated)

/-! ## The `monthly` package -/

/-- The Go map built by `monthly.MergeEntries`: keys are canonical URLs,
and each later write overwrites earlier ones, so the map sends a key to
the LAST entry of `existing ++ new` carrying it (existing entries are
inserted first, new entries second and therefore win). -/
def mergeMap (existing new : List Entry) (k : Str) : Option Entry :=
  ((existing ++ new).filter (fun e => entryKey e = k)).getLast?

/-- Contract of `monthly.MergeEntries`: its output lists, in the (Go
map) iteration order of the claim-irrelevant nondeterminism, exactly the
entries of the merged map. -/
def IsMergeResult (existing new out : List Entry) : Prop :=
  (out.map entryKey).Nodup
    ∧ (∀ e ∈ out, mergeMap existing new (entryKey e) = some e)
    ∧ (∀ e ∈ existing ++ new, entryKey e ∈ out.map entryKey)

/-- First-appearance list of the distinct keys of a list, i.e. the key
set of a Go map populated left to right. -/
def distinctsBy (key : α → Str) (xs : List α) : List Str :=
  xs.foldl (fun ks x => if key x ∈ ks then ks else ks ++ [key x]) []

/-- The distinct month keys of an entry list (the key set of the
`buckets` map of `monthly.SplitByMonth`). -/
def distinctMonths (es : List Entry) : List Str :=
  distinctsBy (fun e => monthKeyOf e.date) es

/-- Descending lexicographic sort of strings, the uniquely determined
result of `sort.Sort(sort.Reverse(sort.StringSlice(months)))` on
pairwise-distinct month keys. -/
def sortDescStr (ms : List Str) : List Str :=
  List.insertionSort (fun a b : Str => a ≥ b) ms

/-- The month keys `monthly.LatestMonths` retains: the distinct months,
sorted descending, truncated to `n` when `n > 0` and more months
exist. -/
def latestMonthsKeys (n : Int) (es : List Entry) : List Str :=
  let months := sortDescStr (distinctMonths es)
  if 0 < n ∧ n < (months.length : Int) then months.take n.toNat else months

/-- The entry list `monthly.LatestMonths` accumulates before its final
`SortByDate`: the input entries, in input order, whose month key is
retained. -/
def latestMonthsPre (f : Feed) (n : Int) : List Entry :=
  f.entries.filter (fun e => monthKeyOf e.date ∈ latestMonthsKeys n f.entries)

/-- Contract of `monthly.LatestMonths`: its output entry list is a
`SortByDate` run over the retained entries. -/
def IsLatestMonthsResult (f : Feed) (n : Int) (out : List Entry) : Prop :=
  SortedRun lessByDate (latestMonthsPre f n) out

instance (f : Feed) (n : Int) (out : List Entry) :
    Decidable (IsLatestMonthsResult f n out) :=
  inferInstanceAs (Decidable (SortedRun lessByDate (latestMonthsPre f n) out))

/-! ## The `api` package -/

/-- Characters kept by the `[^a-z0-9-]` removal of `api.Slugify`. -/
def isSlugChar (c : Char) : Bool :=
  ('a' ≤ c && c ≤ 'z') || ('0' ≤ c && c ≤ '9') || c = '-'

/-- Collapse every run of hyphens to a single hyphen (the `-+` → `-`
replacement of `api.Slugify`). -/
def collapseHyphens (s : Str) : Str :=
  s.foldr (fun c acc => if c = '-' ∧ acc.head? = some '-' then acc else c :: acc) []

/-- Source of `api.Slugify`: lower-case, spaces to hyphens, drop
non-`[a-z0-9-]`, collapse hyphen runs, trim boundary hyphens. -/
def slugify (s : Str) : Str :=
  let s1 := toLowerStr s
  let s2 := s1.map (fun c => if c = ' ' then '-' else c)
  let s3 := s2.filter isSlugChar
  let s4 := collapseHyphens s3
  ((s4.dropWhile (fun c => c = '-')).reverse.dropWhile (fun c => c = '-')).reverse

/-- Source of `api.filterLatestMonths`: `months ≤ 0` passes the feed
through; otherwise only entries dated after `time.Now().AddDate(0,
-months, 0)` are kept.  The wall clock read is the explicit `now`
argument. -/
def filterLatestMonths (f : Feed) (months : Int) (now : GoTime) : Feed :=
  if months ≤ 0 then f
  else
    { generated := f.generated
      title := f.title
      description := f.description
      homeURL := f.homeURL
      entries := f.entries.filter (fun e => e.date.after (now.addDate 0 (-months) 0)) }

/-- Source of `api.MonthRef`. -/
structure MonthRef where
  month : Str
  count : Int
  path : Str
deriving DecidableEq

/-- Source of `api.SourceRef`. -/
structure SourceRef where
  slug : Str
  title : Str
  count : Int
  path : Str
deriving DecidableEq

/-- Source of `api.TagRef`. -/
structure TagRef where
  tag : Str
  slug : Str
  count : Int
  path : Str
deriving DecidableEq

/-- The month references `api.generateByMonth` derives from the
`byMonth` map, one per distinct month with the bucket size as count,
listed here in first-appearance order as one representative of the
map's iteration orders (the subsequent sort is quantified over all
permutations). -/
def byMonthRefs (es : List Entry) : List MonthRef :=
  (distinctMonths es).map (fun m =>
    ⟨m, (es.countP (fun e => monthKeyOf e.date = m) : Int),
      ("/v1/by-month/".toList) ++ m ++ (".json".toList)⟩)

/-- The comparator of the `sort.Slice` in `api.generateByMonth`:
`monthRefs[i].Month > monthRefs[j].Month`. -/
def monthRefLess (a b : MonthRef) : Bool := decide (b.month < a.month)

/-- Contract of the `by-month/index.json` listing. -/
def IsByMonthIndex (es : List Entry) (out : List MonthRef) : Prop :=
  SortedRun monthRefLess (byMonthRefs es) out

instance (es : List Entry) (out : List MonthRef) :
    Decidable (IsByMonthIndex es out) :=
  inferInstanceAs (Decidable (SortedRun monthRefLess (byMonthRefs es) out))

/-- The grouping title `api.generateBySource` uses: the entry's feed
title, with empty replaced by `"Unknown"`. -/
def sourceTitleOf (e : Entry) : Str :=
  if e.feed.title = [] then ("Unknown".toList) else e.feed.title

/-- The source references `api.generateBySource` derives from the
`bySource` map. -/
def bySourceRefs (es : List Entry) : List SourceRef :=
  (distinctsBy sourceTitleOf es).map (fun t =>
    ⟨slugify t, t, (es.countP (fun e => sourceTitleOf e = t) : Int),
      ("/v1/by-source/".toList) ++ slugify t ++ (".json".toList)⟩)

/-- The comparator of the `sort.Slice` in `api.generateBySource`:
`sourceRefs[i].Count > sourceRefs[j].Count` (no tie-break). -/
def sourceRefLess (a b : SourceRef) : Bool := decide (a.count > b.count)

/-- Contract of the `by-source/index.json` listing. -/
def IsBySourceIndex (es : List Entry) (out : List SourceRef) : Prop :=
  SortedRun sourceRefLess (bySourceRefs es) out

instance (es : List Entry) (out : List SourceRef) :
    Decidable (IsBySourceIndex es out) :=
  inferInstanceAs (Decidable (SortedRun sourceRefLess (bySourceRefs es) out))

/-- All tag occurrences of an entry list, in iteration order (an entry
is appended to a tag's bucket once per matching tag occurrence). -/
def tagOccurrences (es : List Entry) : List Str := es.flatMap (fun e => e.tags)

/-- The lower-cased distinct tags, in first-appearance order. -/
def distinctLowerTags (es : List Entry) : List Str :=
  distinctsBy toLowerStr (tagOccurrences es)

/-- The original-case display title of a lower-cased tag: the casing of
its first occurrence (`tagTitles` in `api.generateByTag`). -/
def firstTagTitle (es : List Entry) (lt : Str) : Str :=
  (((tagOccurrences es).find? (fun t => toLowerStr t = lt)).getD [])

/-- The tag references `api.generateByTag` derives from the `byTag`
map. -/
def byTagRefs (es : List Entry) : List TagRef :=
  (distinctLowerTags es).map (fun lt =>
    ⟨firstTagTitle es lt, slugify lt,
      ((tagOccurrences es).countP (fun t => toLowerStr t = lt) : Int),
      ("/v1/by-tag/".toList) ++ slugify lt ++ (".json".toList)⟩)

/-- The comparator of the `sort.Slice` in `api.generateByTag`:
`tagRefs[i].Count > tagRefs[j].Count` (no tie-break). -/
def tagRefLess (a b : TagRef) : Bool := decide (a.count > b.count)

/-- Contract of the `by-tag/index.json` listing. -/
def IsByTagIndex (es : List Entry) (out : List TagRef) : Prop :=
  SortedRun tagRefLess (byTagRefs es) out

instance (es : List Entry) (out : List TagRef) :
    Decidable (IsByTagIndex es out) :=
  inferInstanceAs (Decidable (SortedRun tagRefLess (byTagRefs es) out))

/-! ## The `opml` and `aggregator` packages -/

/-- Source of `opml.Outline`. -/
structure Outline where
  text : Str
  title : Str
  otype : Str
  xmlURL : Str
  htmlURL : Str
  description : Str
  language : Str
  categories : List Str
  outlines : List Outline

/-- Source of `opml.OPML`. -/
structure OPML where
  version : Str
  title : Str
  ownerName : Str
  outlines : List Outline

/-- Source of `opml.OPML.FlattenFeeds`: pre-order walk collecting every
outline with a non-empty feed URL; outlines with an empty `XMLURL` are
dropped (they only group their children). -/
def flattenOutlines : List Outline → List Outline
  | [] => []
  | o :: rest =>
    (if o.xmlURL ≠ [] then [o] else []) ++ flattenOutlines o.outlines
      ++ flattenOutlines rest
termination_by l => sizeOf l
decreasing_by
  all_goals cases o
  all_goals simp
  all_goals omega

/-- Source of `aggregator.Config`; the two durations are in seconds. -/
structure AggConfig where
  userAgent : Str
  timeoutSec : Int
  maxEntries : Int
  maxAgeSec : Int
  filterTags : List Str
  concurrency : Int
deriving DecidableEq

/-- Fragment of a `gofeed.Person`. -/
structure GFPerson where
  name : Str
deriving DecidableEq

/-- Fragment of a `gofeed.Image`. -/
structure GFImage where
  url : Str
deriving DecidableEq

/-- Fragment of a parsed `gofeed.Item`. -/
structure GFItem where
  title : Str
  link : Str
  description : Str
  content : Str
  categories : List Str
  author : Option GFPerson
  publishedParsed : Option GoTime
  updatedParsed : Option GoTime
deriving DecidableEq

/-- Fragment of a parsed `gofeed.Feed`. -/
structure GFeed where
  title : Str
  link : Str
  image : Option GFImage
  items : List GFItem
deriving DecidableEq

/-- The network and parser, modelled as an oracle: fetching an outline
either yields a parsed feed or an error message (unreachable host,
timeout, or malformed document). -/
abbrev FetchOracle := Outline → Except Str GFeed

/-- Source of `aggregator.FetchResult`. -/
structure FetchResult where
  outline : Outline
  entries : List Entry
  error : Option Str

/-- Go `strings.LastIndex(s, " ")` (byte index; the strings in scope are
ASCII), `-1` when absent. -/
def lastSpaceIndex (s : Str) : Int :=
  match s.reverse.findIdx? (fun c => c = ' ') with
  | some i => ((s.length - 1 - i : Nat) : Int)
  | none => -1

/-- Source of `aggregator.truncateHTML`. -/
def truncateHTML (s : Str) (n : Nat) : Str :=
  if s.length ≤ n then s
  else
    let truncated := s.take n
    let idx := lastSpaceIndex truncated
    let truncated2 :=
      if idx > ((n / 2 : Nat) : Int) then truncated.take idx.toNat else truncated
    truncated2 ++ ("...".toList)

/-- Source of `aggregator.uniqueStrings`: keep the first occurrence of
each string up to case, dropping empties. -/
def uniqueStrings (ss : List Str) : List Str :=
  (ss.foldl
    (fun (acc : List Str × List Str) s =>
      let lower := toLowerStr s
      if ¬ lower ∈ acc.1 ∧ s ≠ [] then (acc.1 ++ [lower], acc.2 ++ [s]) else acc)
    ([], [])).2

/-- Publication-date fallback of the `FetchFeed` item loop: published
date, else updated date, else the current time. -/
def itemPubDate (now : GoTime) (item : GFItem) : GoTime :=
  match item.publishedParsed with
  | some t => t
  | none =>
    match item.updatedParsed with
    | some t => t
    | none => now

/-- The entry the `FetchFeed` item loop builds from one feed item. -/
def itemToFetchedEntry (outline : Outline) (feedMeta : FeedMeta) (now : GoTime)
    (item : GFItem) : Entry :=
  let pubDate := itemPubDate now item
  let tags := uniqueStrings (outline.categories ++ item.categories)
  let author := match item.author with | some a => a.name | none => []
  let content := item.content
  let summary :=
    if item.description = [] ∧ content ≠ [] then truncateHTML content 500
    else item.description
  { id := generateID item.link pubDate
    title := item.title
    url := item.link
    author := author
    date := pubDate
    feed := feedMeta
    tags := tags
    summary := summary
    content := content
    image := []
    imageAlt := []
    source := none
    isPriority := false
    priorityRank := 0
    discussions := [] }

/-- Source of `aggregator.Aggregator.FetchFeed`: an empty feed URL or a
failed fetch yields a one-error result, otherwise the feed items (up to
`MaxEntries`, dropping entries older than the `MaxAge` cutoff) become
entries. -/
def fetchFeed (cfg : AggConfig) (oracle : FetchOracle) (now : GoTime)
    (outline : Outline) : FetchResult :=
  if outline.xmlURL = [] then
    ⟨outline, [], some (("no XML URL for feed: ".toList) ++ outline.title)⟩
  else
    match oracle outline with
    | .error err =>
      ⟨outline, [],
        some (("failed to parse ".toList) ++ outline.xmlURL ++ (": ".toList) ++ err)⟩
    | .ok feed =>
      let fmTitle := if feed.title = [] then outline.title else feed.title
      let fmURL := if feed.link = [] then outline.htmlURL else feed.link
      let fmIcon := match feed.image with | some im => im.url | none => []
      let feedMeta : FeedMeta := ⟨fmTitle, fmURL, fmIcon⟩
      let cutoff : Option Int :=
        if cfg.maxAgeSec > 0 then some (now.toSec - cfg.maxAgeSec) else none
      let items :=
        if cfg.maxEntries > 0 then feed.items.take cfg.maxEntries.toNat
        else feed.items
      let entries := items.filterMap (fun item =>
        let keep := match cutoff with
          | some c => decide ((itemPubDate now item).toSec ≥ c)
          | none => true
        if keep then some (itemToFetchedEntry outline feedMeta now item) else none)
      ⟨outline, entries, none⟩

/-- The result-channel drain loop of `FetchAllWithProgress`: starting
from `entry.NewFeed(o.Title, "", "")`, failed results append their error
and successful results `AddEntry` each of their entries, in arrival
order. -/
def collectResults (now : GoTime) (title : Str) (results : List FetchResult) :
    Feed × List Str :=
  results.foldl
    (fun acc r =>
      match r.error with
      | some err => (acc.1, acc.2 ++ [err])
      | none => (r.entries.foldl addEntry acc.1, acc.2))
    (⟨now, title, [], [], []⟩, [])

/-- Contract of `aggregator.Aggregator.FetchAllWithProgress`: results of
the per-outline fetches arrive on the channel in some arbitrary order,
are drained into a feed and an error list, and the feed's entries are
then deduplicated and date-sorted. -/
def IsFetchAllRun (cfg : AggConfig) (oracle : FetchOracle) (now : GoTime)
    (o : OPML) (entriesOut : List Entry) (errs : List Str) : Prop :=
  ∃ arrived : List FetchResult,
    arrived.Perm ((flattenOutlines o.outlines).map (fetchFeed cfg oracle now))
      ∧ errs = (collectResults now o.title arrived).2
      ∧ SortedRun lessByDate (dedup (collectResults now o.title arrived).1.entries)
          entriesOut

/-! ## The `jsonfeed` package and `json.MarshalIndent` bytes -/

/-- Source of `jsonfeed.Author`. -/
structure JAuthor where
  name : Str
  url : Str
  avatar : Str
deriving DecidableEq

/-- Source of `jsonfeed.Item`.  `jsonfeed.SignalDiscussion` and
`jsonfeed.SignalSource` have exactly the fields of `entry.Discussion`
and `entry.Source` and are copied field by field, so the model shares
those types.  `Attachments` is never populated by the pipeline and,
being `omitempty`, never rendered; it is left out of the model. -/
structure JItem where
  id : Str
  url : Str
  externalURL : Str
  title : Str
  contentHTML : Str
  contentText : Str
  summary : Str
  image : Str
  bannerImage : Str
  datePublished : Str
  dateModified : Str
  authors : List JAuthor
  tags : List Str
  language : Str
  signalFeedTitle : Str
  signalFeedURL : Str
  signalPriority : Bool
  signalRank : Int
  signalDiscussions : List Discussion
  signalSource : Option SourceMeta
deriving DecidableEq

/-- Source of `jsonfeed.Feed`. -/
structure JFeed where
  version : Str
  title : Str
  homePageURL : Str
  feedURL : Str
  description : Str
  userComment : Str
  nextURL : Str
  icon : Str
  favicon : Str
  authors : List JAuthor
  language : Str
  expired : Bool
  items : List JItem
  signalGenerated : Str
  signalPeriod : Str
deriving DecidableEq

/-- The `jsonfeed.Version` constant. -/
def jsonfeedVersion : Str := ("https://jsonfeed.org/version/1.1".toList)

/-- Source of `jsonfeed.NewFeed`: version, title, empty item slice, and
the wall clock formatted as RFC3339 into `_signal_generated`.  The
clock read is the explicit `now` argument. -/
def newJFeed (title : Str) (now : GoTime) : JFeed :=
  { version := jsonfeedVersion
    title := title
    homePageURL := []
    feedURL := []
    description := []
    userComment := []
    nextURL := []
    icon := []
    favicon := []
    authors := []
    language := []
    expired := false
    items := []
    signalGenerated := rfc3339 now
    signalPeriod := [] }

/-- The item `entry.Feed.ToJSONFeed` builds from one entry. -/
def entryToItem (e : Entry) : JItem :=
  { id := e.id
    url := e.url
    externalURL := []
    title := e.title
    contentHTML := e.content
    contentText := []
    summary := e.summary
    image := e.image
    bannerImage := []
    datePublished := rfc3339 e.date
    dateModified := []
    authors := if e.author ≠ [] then [⟨e.author, [], []⟩] else []
    tags := e.tags
    language := []
    signalFeedTitle := e.feed.title
    signalFeedURL := e.feed.url
    signalPriority := e.isPriority
    signalRank := e.priorityRank
    signalDiscussions := e.discussions
    signalSource := e.source }

/-- Source of `entry.Feed.ToJSONFeed`. -/
def toJSONFeed (f : Feed) (now : GoTime) : JFeed :=
  { newJFeed f.title now with
      homePageURL := f.homeURL
      description := f.description
      items := f.entries.map entryToItem }

/-- Source of `api.generateFeeds`, producing the `feeds/latest.json`
record: filter to the latest-months window, convert, and override the
title with the planet name.  `nowF` is the clock read inside
`filterLatestMonths`, `nowG` the one inside `jsonfeed.NewFeed`. -/
def generateLatestFeed (f : Feed) (latestMonths : Int) (planetName : Str)
    (nowF nowG : GoTime) : JFeed :=
  { toJSONFeed (filterLatestMonths f latestMonths nowF) nowG with
      title := planetName }

/-- Go `encoding/json` escaping of one character (HTML escaping on, as
`json.Marshal` defaults). -/
def escapeChar (c : Char) : Str :=
  if c = '"' then ['\\', '"']
  else if c = '\\' then ['\\', '\\']
  else if c = '\n' then ['\\', 'n']
  else if c = '\r' then ['\\', 'r']
  else if c = '\t' then ['\\', 't']
  else if c.toNat < 32 then '\\' :: 'u' :: '0' :: '0' :: hexByte c.toNat
  else if c = '<' then ("\\u003c".toList)
  else if c = '>' then ("\\u003e".toList)
  else if c = '&' then ("\\u0026".toList)
  else if c.toNat = 8232 then ("\\u2028".toList)
  else if c.toNat = 8233 then ("\\u2029".toList)
  else [c]

/-- Go `encoding/json` escaping of a string body. -/
def escapeJSON (s : Str) : Str := s.flatMap escapeChar

/-- A rendered JSON string literal. -/
def jstr (s : Str) : Str := '"' :: escapeJSON s ++ ['"']

/-- A rendered JSON integer. -/
def jint (n : Int) : Str :=
  (if n < 0 then ['-'] else []) ++ (natDigits n.natAbs).map digitChar

/-- A rendered JSON boolean. -/
def jbool (b : Bool) : Str := if b then ("true".toList) else ("false".toList)

/-- Interleave a separator between rendered pieces. -/
def joinSep (sep : Str) : List Str → Str
  | [] => []
  | [x] => x
  | x :: y :: xs => x ++ sep ++ joinSep sep (y :: xs)

/-- Bytes of a JSON object as `json.MarshalIndent(v, "", "  ")` lays it
out: `ind` is the indentation of the line the object starts on, fields
are indented two further spaces, and the closing brace returns to
`ind`. -/
def renderObj (ind : Str) (fields : List (Str × Str)) : Str :=
  match fields with
  | [] => ['\x7b', '\x7d']
  | _ =>
    ['\x7b', '\n']
      ++ joinSep (',' :: '\n' :: [])
        (fields.map (fun f => ind ++ (' ' :: ' ' :: []) ++ jstr f.1
          ++ (':' :: ' ' :: []) ++ f.2))
      ++ ('\n' :: ind) ++ ['\x7d']

/-- Bytes of a JSON array under `json.MarshalIndent(v, "", "  ")`. -/
def renderArr (ind : Str) (elems : List Str) : Str :=
  match elems with
  | [] => ['[', ']']
  | _ =>
    ('[' :: '\n' :: [])
      ++ joinSep (',' :: '\n' :: []) (elems.map (fun v => ind ++ (' ' :: ' ' :: []) ++ v))
      ++ ('\n' :: ind) ++ [']']

/-- An `omitempty` string field: present only when non-empty. -/
def optStrField (name : Str) (v : Str) : List (Str × Str) :=
  if v = [] then [] else [(name, jstr v)]

/-- An `omitempty` int field: present only when non-zero. -/
def optIntField (name : Str) (v : Int) : List (Str × Str) :=
  if v = 0 then [] else [(name, jint v)]

/-- An `omitempty` bool field: present only when true. -/
def optBoolField (name : Str) (v : Bool) : List (Str × Str) :=
  if v then [(name, jbool v)] else []

/-- Rendered `jsonfeed.Author` (every field `omitempty`). -/
def renderAuthor (ind : Str) (a : JAuthor) : Str :=
  renderObj ind
    (optStrField ("name".toList) a.name ++ optStrField ("url".toList) a.url
      ++ optStrField ("avatar".toList) a.avatar)

/-- Rendered `jsonfeed.SignalDiscussion` (`platform` and `url` always
present, the rest `omitempty`). -/
def renderDiscussion (ind : Str) (d : Discussion) : Str :=
  renderObj ind
    ([(("platform".toList), jstr d.platform), (("url".toList), jstr d.url)]
      ++ optStrField ("id".toList) d.id
      ++ optIntField ("score".toList) d.score
      ++ optIntField ("comments".toList) d.comments)

/-- Rendered `jsonfeed.SignalSource` (`platform` always present). -/
def renderSource (ind : Str) (s : SourceMeta) : Str :=
  renderObj ind
    ([(("platform".toList), jstr s.platform)]
      ++ optStrField ("author".toList) s.author
      ++ optStrField ("postId".toList) s.postID)

/-- The rendered field list of a `jsonfeed.Item`, in struct order (`id`
is the only non-`omitempty` field). -/
def itemFields (ind : Str) (it : JItem) : List (Str × Str) :=
  [(("id".toList), jstr it.id)]
    ++ optStrField ("url".toList) it.url
    ++ optStrField ("external_url".toList) it.externalURL
    ++ optStrField ("title".toList) it.title
    ++ optStrField ("content_html".toList) it.contentHTML
    ++ optStrField ("content_text".toList) it.contentText
    ++ optStrField ("summary".toList) it.summary
    ++ optStrField ("image".toList) it.image
    ++ optStrField ("banner_image".toList) it.bannerImage
    ++ optStrField ("date_published".toList) it.datePublished
    ++ optStrField ("date_modified".toList) it.dateModified
    ++ (if it.authors = [] then []
        else [(("authors".toList),
          renderArr (ind ++ (' ' :: ' ' :: []))
            (it.authors.map (renderAuthor (ind ++ (' ' :: ' ' :: ' ' :: ' ' :: [])))))])
    ++ (if it.tags = [] then []
        else [(("tags".toList),
          renderArr (ind ++ (' ' :: ' ' :: [])) (it.tags.map jstr))])
    ++ optStrField ("language".toList) it.language
    ++ optStrField ("_signal_feed_title".toList) it.signalFeedTitle
    ++ optStrField ("_signal_feed_url".toList) it.signalFeedURL
    ++ optBoolField ("_signal_priority".toList) it.signalPriority
    ++ optIntField ("_signal_rank".toList) it.signalRank
    ++ (if it.signalDiscussions = [] then []
        else [(("_signal_discussions".toList),
          renderArr (ind ++ (' ' :: ' ' :: []))
            (it.signalDiscussions.map
              (renderDiscussion (ind ++ (' ' :: ' ' :: ' ' :: ' ' :: [])))))])
    ++ (match it.signalSource with
        | none => []
        | some s =>
          [(("_signal_source".toList), renderSource (ind ++ (' ' :: ' ' :: [])) s)])

/-- Rendered `jsonfeed.Item`. -/
def renderItem (ind : Str) (it : JItem) : Str := renderObj ind (itemFields ind it)

/-- The rendered field list of a `jsonfeed.Feed`, in struct order
(`version`, `title` and `items` are always present, the rest
`omitempty`; the Signal extensions come after `items`). -/
def feedFields (jf : JFeed) : List (Str × Str) :=
  [(("version".toList), jstr jf.version), (("title".toList), jstr jf.title)]
    ++ optStrField ("home_page_url".toList) jf.homePageURL
    ++ optStrField ("feed_url".toList) jf.feedURL
    ++ optStrField ("description".toList) jf.description
    ++ optStrField ("user_comment".toList) jf.userComment
    ++ optStrField ("next_url".toList) jf.nextURL
    ++ optStrField ("icon".toList) jf.icon
    ++ optStrField ("favicon".toList) jf.favicon
    ++ (if jf.authors = [] then []
        else [(("authors".toList),
          renderArr (' ' :: ' ' :: [])
            (jf.authors.map (renderAuthor (' ' :: ' ' :: ' ' :: ' ' :: []))))])
    ++ optStrField ("language".toList) jf.language
    ++ optBoolField ("expired".toList) jf.expired
    ++ [(("items".toList),
      renderArr (' ' :: ' ' :: [])
        (jf.items.map (renderItem (' ' :: ' ' :: ' ' :: ' ' :: []))))]
    ++ optStrField ("_signal_generated".toList) jf.signalGenerated
    ++ optStrField ("_signal_period".toList) jf.signalPeriod

/-- The bytes `jsonfeed.Feed.WriteFile` writes:
`json.MarshalIndent(f, "", "  ")`. -/
def renderFeed (jf : JFeed) : Str := renderObj [] (feedFields jf)

/-- The prefix of `feedFields` before the `_signal_generated` field. -/
def feedFieldsHead (jf : JFeed) : List (Str × Str) :=
  [(("version".toList), jstr jf.version), (("title".toList), jstr jf.title)]
    ++ optStrField ("home_page_url".toList) jf.homePageURL
    ++ optStrField ("feed_url".toList) jf.feedURL
    ++ optStrField ("description".toList) jf.description
    ++ optStrField ("user_comment".toList) jf.userComment
    ++ optStrField ("next_url".toList) jf.nextURL
    ++ optStrField ("icon".toList) jf.icon
    ++ optStrField ("favicon".toList) jf.favicon
    ++ (if jf.authors = [] then []
        else [(("authors".toList),
          renderArr (' ' :: ' ' :: [])
            (jf.authors.map (renderAuthor (' ' :: ' ' :: ' ' :: ' ' :: []))))])
    ++ optStrField ("language".toList) jf.language
    ++ optBoolField ("expired".toList) jf.expired
    ++ [(("items".toList),
      renderArr (' ' :: ' ' :: [])
        (jf.items.map (renderItem (' ' :: ' ' :: ' ' :: ' ' :: []))))]

/-- Everything `json.MarshalIndent` emits for a feed whose
`_signal_period` is empty, up to but not including the
`_signal_generated` string value. -/
def renderPre (jf : JFeed) : Str :=
  ['\x7b', '\n']
    ++ joinSep (',' :: '\n' :: [])
      ((feedFieldsHead jf).map
        (fun f => ([] : Str) ++ (' ' :: ' ' :: []) ++ jstr f.1
          ++ (':' :: ' ' :: []) ++ f.2))
    ++ (',' :: '\n' :: [])
    ++ (([] : Str) ++ (' ' :: ' ' :: []) ++ jstr ("_signal_generated".toList)
      ++ (':' :: ' ' :: []))

/-! ## Specification-side definitions

These follow the SPEC's wording, for comparison with the definitions
above, which follow the source. -/

/-- First-appearance list of the canonical URLs of an entry list (the
order in which `Feed.Deduplicate` first sees each key). -/
def firstSeenKeys (es : List Entry) : List Str := distinctsBy entryKey es

/-- The entries of `es` sharing the canonical URL `k`, in order. -/
def groupOf (k : Str) (es : List Entry) : List Entry :=
  es.filter (fun e => entryKey e = k)

/-- Spec 4.3's discussion union: all records in order, keyed by URL,
first occurrence of each discussion URL winning. -/
def unionByURL (ds : List Discussion) : List Discussion :=
  ds.foldl
    (fun acc d => if acc.any (fun d2 => d2.url = d.url) then acc else acc ++ [d])
    []

/-- Spec 4.3's merged entry for one canonical-URL group: the first-seen
entry survives with its other fields unchanged, its discussion list
becomes the URL-keyed union of the whole group's discussion records, and
a priority duplicate promotes a non-priority survivor, which takes the
rank of the first such duplicate. -/
def specMergeGroup : List Entry → Option Entry
  | [] => none
  | s :: rest => some
    { s with
        discussions := unionByURL ((s :: rest).flatMap (fun e => e.discussions))
        isPriority := s.isPriority || rest.any (fun e => e.isPriority)
        priorityRank :=
          if s.isPriority then s.priorityRank
          else
            match rest.find? (fun e => e.isPriority) with
            | some d => d.priorityRank
            | none => s.priorityRank }

/-- A structurally recursive rendering of one `Feed.Deduplicate` loop
iteration: merge into the first entry with a matching key, else append.
It is proven equal to `dedupStep`. -/
def insertEntry : List Entry → Entry → List Entry
  | [], e => [e]
  | u :: rest, e =>
    if entryKey u = entryKey e then mergeDup u e :: rest
    else u :: insertEntry rest e

/-- An entry whose discussion records are unique by URL (the data-model
invariant the spec states for Entries). -/
def UniqDiscussions (e : Entry) : Prop :=
  (e.discussions.map (fun d => d.url)).Nodup

instance (e : Entry) : Decidable (UniqDiscussions e) :=
  inferInstanceAs (Decidable ((e.discussions.map (fun d : Discussion => d.url)).Nodup))

/-- Claim C2's canonicalization: lowercase, then strip EXACTLY ONE
trailing slash. -/
def specCanonicalize (u : Str) : Str :=
  let l := toLowerStr u
  if l.getLast? = some '/' then l.dropLast else l

/-- Claim C3, as stated: when an archived entry and a current-run entry
share a canonical URL (each being the only carrier of that key in its
list), the historical merge keeps the new entry — content, title,
priority from it — but unions the archived entry's discussion links into
it. -/
def ClaimC3 : Prop :=
  ∀ (existing new : List Entry) (e1 e2 : Entry),
    e1 ∈ existing → e2 ∈ new → entryKey e1 = entryKey e2 →
    (∀ e ∈ existing, entryKey e = entryKey e1 → e = e1) →
    (∀ e ∈ new, entryKey e = entryKey e2 → e = e2) →
    mergeMap existing new (entryKey e2)
      = some { e2 with discussions := mergeDiscussions e2.discussions e1.discussions }

/-- Entries in non-increasing publication-date order. -/
def NonIncreasing (out : List Entry) : Prop :=
  out.Pairwise (fun a b => b.date.toSec ≤ a.date.toSec)

instance (out : List Entry) : Decidable (NonIncreasing out) :=
  decPairwise _ out

/-- Pairs of equal-date entries of `out` appear in the same relative
order as in `input` (the stability tie-break Claim C5 asserts). -/
def TiesStable (input out : List Entry) : Prop :=
  out.Pairwise
    (fun a b => a.date.toSec = b.date.toSec → input.indexOf a ≤ input.indexOf b)

instance (input out : List Entry) : Decidable (TiesStable input out) :=
  decPairwise _ out

/-- Claim C5, as stated: every date sort the aggregation can produce is
non-increasing and breaks date ties by insertion order. -/
def ClaimC5 : Prop :=
  ∀ es out, SortedRun lessByDate (dedup es) out →
    NonIncreasing out ∧ TiesStable (dedup es) out

/-- A month is among the `n` most recent distinct publication months of
an entry set: it occurs, and fewer than `n` distinct months are more
recent. -/
def IsTopMonth (n : Int) (es : List Entry) (m : Str) : Prop :=
  m ∈ distinctMonths es
    ∧ ((distinctMonths es).countP (fun m2 => decide (m < m2)) : Int) < n

instance (n : Int) (es : List Entry) (m : Str) : Decidable (IsTopMonth n es m) :=
  inferInstanceAs (Decidable (_ ∧ _))

/-- Claim C6, as stated: for `K > 0` the `feeds/latest.json` window
holds exactly the entries of the `K` most recent distinct months of the
entry set, and for `K ≤ 0` everything. -/
def ClaimC6 : Prop :=
  ∀ f K now e,
    (0 < K → ((e ∈ (filterLatestMonths f K now).entries) ↔
      e ∈ f.entries ∧ IsTopMonth K f.entries (monthKeyOf e.date)))
    ∧ (K ≤ 0 → filterLatestMonths f K now = f)

/-- Ordered by count descending, ties broken by month ascending. -/
def CountThenMonthSorted (out : List MonthRef) : Prop :=
  out.Pairwise (fun a b => b.count < a.count ∨ (a.count = b.count ∧ a.month < b.month))

instance (out : List MonthRef) : Decidable (CountThenMonthSorted out) :=
  decPairwise _ out

/-- Ordered by count descending, ties broken by slug ascending. -/
def CountThenSlugSorted (out : List SourceRef) : Prop :=
  out.Pairwise (fun a b => b.count < a.count ∨ (a.count = b.count ∧ a.slug < b.slug))

instance (out : List SourceRef) : Decidable (CountThenSlugSorted out) :=
  decPairwise _ out

/-- Ordered by count descending, ties broken by slug ascending. -/
def CountThenTagSlugSorted (out : List TagRef) : Prop :=
  out.Pairwise (fun a b => b.count < a.count ∨ (a.count = b.count ∧ a.slug < b.slug))

instance (out : List TagRef) : Decidable (CountThenTagSlugSorted out) :=
  decPairwise _ out

/-- Claim C7, as stated: all three index listings are ordered by count
descending with ties broken by the natural key ascending. -/
def ClaimC7 : Prop :=
  (∀ es out, IsByMonthIndex es out → CountThenMonthSorted out)
    ∧ (∀ es out, IsBySourceIndex es out → CountThenSlugSorted out)
    ∧ (∀ es out, IsByTagIndex es out → CountThenTagSlugSorted out)

/-- Claim C8, as stated: two pipeline runs over the same feed state
write byte-identical `feeds/latest.json` files regardless of the wall
clock readings of the two runs. -/
def ClaimC8 : Prop :=
  ∀ f n pn tF tG tF' tG',
    renderFeed (generateLatestFeed f n pn tF tG)
      = renderFeed (generateLatestFeed f n pn tF' tG')

/-- Claim C9, as stated, for a flat source list: every failing source —
a missing feed URL included — contributes exactly one error to the
aggregation's error list, and entries of every successful source are
still represented in the aggregated feed. -/
def ClaimC9 : Prop :=
  ∀ cfg oracle now (o : OPML) entriesOut errs,
    (∀ x ∈ o.outlines, x.outlines = []) →
    IsFetchAllRun cfg oracle now o entriesOut errs →
    errs.length
        = o.outlines.countP (fun x => ((fetchFeed cfg oracle now x).error).isSome)
      ∧ ∀ x ∈ o.outlines, (fetchFeed cfg oracle now x).error = none →
          ∀ e ∈ (fetchFeed cfg oracle now x).entries,
            ∃ e2 ∈ entriesOut, entryKey e2 = entryKey e

/-! ## Concrete instances used by counterexamples and witnesses -/

/-- An entry with zero-valued fields, the base of concrete instances. -/
def baseEntry : Entry :=
  { id := [], title := [], url := [], author := [], date := GoTime.zero,
    feed := ⟨[], [], []⟩, tags := [], summary := [], content := [],
    image := [], imageAlt := [], source := none, isPriority := false,
    priorityRank := 0, discussions := [] }

/-- A concrete discussion record. -/
def hnDisc : Discussion :=
  ⟨("hackernews".toList), ("http://hn/123".toList), [], 0, 0⟩

/-- An archived entry carrying a discussion link. -/
def archEntry : Entry :=
  { baseEntry with
      url := ("http://y.com/p".toList), title := ("old".toList),
      discussions := [hnDisc] }

/-- A freshly fetched entry at the same canonical URL, without
discussions. -/
def freshEntry : Entry :=
  { baseEntry with url := ("http://y.com/p".toList), title := ("new".toList) }

/-- Two distinct entries sharing one publication date. -/
def entA : Entry :=
  { baseEntry with url := ("http://a".toList), date := ⟨2026, 2, 1, 0, 0, 0⟩ }

/-- Second entry of the equal-date pair. -/
def entB : Entry :=
  { baseEntry with url := ("http://b".toList), date := ⟨2026, 2, 1, 0, 0, 0⟩ }

/-- An entry published in month `m` of 2020. -/
def entMonth (m : Int) : Entry := { baseEntry with date := ⟨2020, m, 1, 0, 0, 0⟩ }

/-- A feed whose five entries span five distinct months, all in the
past relative to the 2026 clock below. -/
def c6Feed : Feed :=
  ⟨GoTime.zero, [], [], [],
    [entMonth 1, entMonth 2, entMonth 3, entMonth 4, entMonth 5]⟩

/-- A concrete 2026 wall-clock reading. -/
def nowC : GoTime := ⟨2026, 10, 11, 0, 0, 0⟩

/-- Two entries in 2026-01 and one in 2026-02: the younger month has
the smaller count. -/
def c7Entries : List Entry :=
  [{ baseEntry with url := ("http://a".toList), date := ⟨2026, 1, 1, 0, 0, 0⟩ },
   { baseEntry with url := ("http://b".toList), date := ⟨2026, 1, 2, 0, 0, 0⟩ },
   { baseEntry with url := ("http://c".toList), date := ⟨2026, 2, 1, 0, 0, 0⟩ }]

/-- A feed with no entries. -/
def emptyFeed : Feed := ⟨GoTime.zero, [], [], [], []⟩

/-- Wall-clock reading of a first run. -/
def t1C : GoTime := ⟨2026, 1, 1, 0, 0, 0⟩

/-- Wall-clock reading of a second run, one second later. -/
def t2C : GoTime := ⟨2026, 1, 1, 0, 0, 1⟩

/-- A source descriptor with a title but no feed URL. -/
def badOutline : Outline :=
  ⟨[], ("B".toList), [], [], [], [], [], [], []⟩

/-- A source list holding exactly the URL-less source. -/
def opmlBad : OPML := ⟨[], ("T".toList), [], [badOutline]⟩

/-- A trivial fetch oracle. -/
def oracle0 : FetchOracle := fun _ => .error []

/-- A source descriptor with a feed URL (which `oracle0` fails to
fetch). -/
def goodOutline : Outline :=
  ⟨[], ("G".toList), [], ("http://feed".toList), [], [], [], [], []⟩

/-- A source list holding exactly the fetchable source. -/
def opmlGood : OPML := ⟨[], ("T".toList), [], [goodOutline]⟩

/-- A zeroed aggregator configuration. -/
def cfg0 : AggConfig := ⟨[], 0, 0, 0, [], 0⟩

/-- A concrete priority link with a zero (absent) date. -/
def wLink : PLink :=
  ⟨("L".toList), ("http://p".toList), [], GoTime.zero, [], [], [], 3,
    [], [], [], [], none, []⟩

/-- A concrete priority-link collection around `wLink`. -/
def wLinks : PLinks := ⟨[], [], [], ⟨2026, 5, 1, 0, 0, 0⟩, [wLink]⟩

/-- First entry of the C1 witness: plain, no discussions. -/
def w1Entry : Entry :=
  { baseEntry with url := ("http://y.com/p".toList), title := ("t1".toList) }

/-- Second entry of the C1 witness: a trailing-slash, upper-case
variant of the same URL, priority-flagged, with a discussion. -/
def w2Entry : Entry :=
  { baseEntry with
      url := ("http://Y.com/p/".toList), isPriority := true,
      priorityRank := 1, discussions := [hnDisc] }

/-! ## Helper lemmas: first-appearance key lists -/

theorem distinctsBy_aux_mem (key : α → Str) (xs : List α) (acc : List Str) (k : Str) :
    (k ∈ xs.foldl (fun ks x => if key x ∈ ks then ks else ks ++ [key x]) acc)
      ↔ k ∈ acc ∨ ∃ x ∈ xs, key x = k := by
  induction xs generalizing acc with
  | nil => simp
  | cons x xs ih =>
    simp only [List.foldl_cons]
    rw [ih]
    by_cases h : key x ∈ acc
    · rw [if_pos h]
      constructor
      · rintro (h1 | ⟨y, hy, rfl⟩)
        · exact Or.inl h1
        · exact Or.inr ⟨y, List.mem_cons_of_mem _ hy, rfl⟩
      · rintro (h1 | ⟨y, hy, rfl⟩)
        · exact Or.inl h1
        · rcases List.mem_cons.mp hy with rfl | hy2
          · exact Or.inl h
          · exact Or.inr ⟨y, hy2, rfl⟩
    · rw [if_neg h]
      constructor
      · rintro (h1 | ⟨y, hy, rfl⟩)
        · rcases List.mem_append.mp h1 with h2 | h2
          · exact Or.inl h2
          · exact Or.inr ⟨x, List.mem_cons_self _ _, (List.mem_singleton.mp h2).symm⟩
        · exact Or.inr ⟨y, List.mem_cons_of_mem _ hy, rfl⟩
      · rintro (h1 | ⟨y, hy, rfl⟩)
        · exact Or.inl (List.mem_append.mpr (Or.inl h1))
        · rcases List.mem_cons.mp hy with rfl | hy2
          · exact Or.inl (List.mem_append.mpr (Or.inr (List.mem_singleton.mpr rfl)))
          · exact Or.inr ⟨y, hy2, rfl⟩

theorem mem_distinctsBy (key : α → Str) (xs : List α) (k : Str) :
    k ∈ distinctsBy key xs ↔ ∃ x ∈ xs, key x = k := by
  rw [distinctsBy, distinctsBy_aux_mem]
  simp

theorem distinctsBy_aux_nodup (key : α → Str) (xs : List α) (acc : List Str)
    (h : acc.Nodup) :
    (xs.foldl (fun ks x => if key x ∈ ks then ks else ks ++ [key x]) acc).Nodup := by
  induction xs generalizing acc with
  | nil => simpa
  | cons x xs ih =>
    simp only [List.foldl_cons]
    by_cases hm : key x ∈ acc
    · rw [if_pos hm]; exact ih _ h
    · rw [if_neg hm]
      exact ih _ (by simp [List.nodup_append, h, hm])

theorem nodup_distinctsBy (key : α → Str) (xs : List α) :
    (distinctsBy key xs).Nodup :=
  distinctsBy_aux_nodup key xs [] List.nodup_nil

theorem distinctsBy_snoc (key : α → Str) (xs : List α) (x : α) :
    distinctsBy key (xs ++ [x])
      = if key x ∈ distinctsBy key xs then distinctsBy key xs
        else distinctsBy key xs ++ [key x] := by
  simp [distinctsBy, List.foldl_append]

/-! ## Helper lemmas: `Feed.Deduplicate` machinery -/

theorem mergeDup_discussions (u e : Entry) :
    (mergeDup u e).discussions = mergeDiscussions u.discussions e.discussions := by
  simp only [mergeDup]
  rcases Nat.eq_zero_or_pos e.discussions.length with hz | hp
  · rw [List.length_eq_zero] at hz
    simp [hz, mergeDiscussions]
    split <;> rfl
  · simp only [if_pos hp]
    split <;> rfl

theorem mergeDup_isPriority (u e : Entry) :
    (mergeDup u e).isPriority = (u.isPriority || e.isPriority) := by
  unfold mergeDup
  cases hu : u.isPriority <;> cases he : e.isPriority <;>
    by_cases hp : e.discussions.length > 0 <;>
    simp [hu, he, hp]

theorem mergeDup_rank (u e : Entry) :
    (mergeDup u e).priorityRank
      = if e.isPriority ∧ ¬ u.isPriority then e.priorityRank
        else u.priorityRank := by
  unfold mergeDup
  cases hu : u.isPriority <;> cases he : e.isPriority <;>
    by_cases hp : e.discussions.length > 0 <;>
    simp [hu, he, hp]

theorem mergeDup_url (u e : Entry) : (mergeDup u e).url = u.url := by
  simp only [mergeDup]; split <;> split <;> rfl

theorem mergeDup_id (u e : Entry) : (mergeDup u e).id = u.id := by
  simp only [mergeDup]; split <;> split <;> rfl

theorem mergeDup_title (u e : Entry) : (mergeDup u e).title = u.title := by
  simp only [mergeDup]; split <;> split <;> rfl

theorem mergeDup_date (u e : Entry) : (mergeDup u e).date = u.date := by
  simp only [mergeDup]; split <;> split <;> rfl

theorem mergeDup_summary (u e : Entry) : (mergeDup u e).summary = u.summary := by
  simp only [mergeDup]; split <;> split <;> rfl

theorem mergeDup_content (u e : Entry) : (mergeDup u e).content = u.content := by
  simp only [mergeDup]; split <;> split <;> rfl

theorem mergeDup_key (u e : Entry) : entryKey (mergeDup u e) = entryKey u := by
  simp [entryKey, mergeDup_url]

theorem dedupStep_eq_insertEntry (acc : List Entry) (e : Entry) :
    dedupStep acc e = insertEntry acc e := by
  induction acc with
  | nil => rfl
  | cons u rest ih =>
    by_cases h : entryKey u = entryKey e
    · simp [dedupStep, insertEntry, List.findIdx?_cons, h, List.modify]
    · have step : dedupStep (u :: rest) e = u :: dedupStep rest e := by
        simp only [dedupStep, List.findIdx?_cons, decide_eq_true_eq]
        rw [if_neg h, List.findIdx?_succ]
        cases hfi : List.findIdx? (fun u2 => decide (entryKey u2 = entryKey e)) rest with
        | none => simp [hfi]
        | some i => simp [hfi, List.modify]
      rw [step, ih]
      simp [insertEntry, h]

theorem dedup_snoc (es : List Entry) (e : Entry) :
    dedup (es ++ [e]) = insertEntry (dedup es) e := by
  simp [dedup, List.foldl_append, dedupStep_eq_insertEntry]

theorem insertEntry_map_key_of_mem (acc : List Entry) (e : Entry)
    (h : entryKey e ∈ acc.map entryKey) :
    (insertEntry acc e).map entryKey = acc.map entryKey := by
  induction acc with
  | nil => simp at h
  | cons u rest ih =>
    simp only [insertEntry]
    by_cases hk : entryKey u = entryKey e
    · simp [hk, mergeDup_key]
    · simp only [List.map_cons, List.mem_cons] at h
      rcases h with h | h
    -- first disjunct contradicts hk
      · exact absurd h.symm hk
      · simp [hk, ih h]

theorem insertEntry_of_not_mem (acc : List Entry) (e : Entry)
    (h : entryKey e ∉ acc.map entryKey) :
    insertEntry acc e = acc ++ [e] := by
  induction acc with
  | nil => rfl
  | cons u rest ih =>
    simp only [List.map_cons, List.mem_cons, not_or] at h
    have hne : entryKey u ≠ entryKey e := fun hh => h.1 hh.symm
    simp only [insertEntry, if_neg hne]
    rw [ih h.2]
    rfl

theorem dedup_keys (es : List Entry) :
    (dedup es).map entryKey = firstSeenKeys es := by
  induction es using List.reverseRecOn with
  | nil => rfl
  | append_singleton es e ih =>
    rw [dedup_snoc, firstSeenKeys, distinctsBy_snoc]
    rw [firstSeenKeys] at ih
    by_cases h : entryKey e ∈ distinctsBy entryKey es
    · rw [if_pos h, insertEntry_map_key_of_mem _ _ (ih ▸ h), ih]
    · rw [if_neg h, insertEntry_of_not_mem _ _ (ih ▸ h)]
      simp [ih]

theorem dedup_keys_nodup (es : List Entry) :
    ((dedup es).map entryKey).Nodup := by
  rw [dedup_keys]; exact nodup_distinctsBy _ _

theorem unionByURL_append (xs ys : List Discussion) :
    unionByURL (xs ++ ys) = mergeDiscussions (unionByURL xs) ys := by
  simp [unionByURL, mergeDiscussions, List.foldl_append]

theorem mergeDiscussions_of_disjoint (ds acc : List Discussion)
    (hd : ∀ d ∈ ds, ∀ d2 ∈ acc, ¬ d2.url = d.url)
    (hn : (ds.map (fun d => d.url)).Nodup) :
    mergeDiscussions acc ds = acc ++ ds := by
  induction ds generalizing acc with
  | nil => simp [mergeDiscussions]
  | cons d ds ih =>
    have hany : (acc.any fun d2 => decide (d2.url = d.url)) = false := by
      rw [List.any_eq_false]
      intro d2 hd2
      simpa using hd d (List.mem_cons_self _ _) d2 hd2
    have step1 : mergeDiscussions acc (d :: ds) = mergeDiscussions (acc ++ [d]) ds := by
      simp only [mergeDiscussions, List.foldl_cons]
      rw [hany]
      simp
    rw [step1, ih (acc ++ [d]) ?_ ((List.nodup_cons.mp (by simpa using hn)).2),
      List.append_assoc]
    · rfl
    · intro d3 hd3 d2 hd2
      rcases List.mem_append.mp hd2 with hmem | hmem
      · exact hd d3 (List.mem_cons_of_mem _ hd3) d2 hmem
      · rw [List.mem_singleton.mp hmem]
        simp only [List.map_cons, List.nodup_cons] at hn
        intro hurl
        exact hn.1 (hurl ▸ List.mem_map_of_mem (fun d4 => d4.url) hd3)

theorem unionByURL_of_nodup (ds : List Discussion)
    (h : (ds.map (fun d => d.url)).Nodup) : unionByURL ds = ds := by
  have : unionByURL ds = mergeDiscussions [] ds := rfl
  rw [this, mergeDiscussions_of_disjoint ds [] (by simp) h]
  rfl

theorem mergeDup_eq (u e : Entry) :
    mergeDup u e =
      { u with
          discussions := mergeDiscussions u.discussions e.discussions
          isPriority := u.isPriority || e.isPriority
          priorityRank :=
            if e.isPriority ∧ ¬ u.isPriority then e.priorityRank
            else u.priorityRank } := by
  obtain ⟨uid, utitle, uurl, uauthor, udate, ufeed, utags, usum, ucont,
    uimg, uimgAlt, usrc, uprio, urank, udisc⟩ := u
  by_cases hp : e.discussions.length > 0
  · unfold mergeDup
    cases uprio <;> cases he : e.isPriority <;> simp [he, hp]
  · have hz : e.discussions = [] := by
      rw [← List.length_eq_zero]; omega
    have hm : mergeDiscussions udisc e.discussions = udisc := by
      rw [hz]; rfl
    unfold mergeDup
    cases uprio <;> cases he : e.isPriority <;> simp [he, hp, hm]

theorem specMergeGroup_singleton (e : Entry) (he : UniqDiscussions e) :
    specMergeGroup [e] = some e := by
  obtain ⟨eid, etitle, eurl, eauthor, edate, efeed, etags, esum, econt,
    eimg, eimgAlt, esrc, eprio, erank, edisc⟩ := e
  simp only [specMergeGroup, List.flatMap_cons, List.flatMap_nil,
    List.append_nil, List.any_nil, Bool.or_false, List.find?_nil]
  rw [unionByURL_of_nodup _ he]
  cases eprio <;> simp

theorem specMerge_snoc (g : List Entry) (u e : Entry)
    (h : specMergeGroup g = some u) :
    specMergeGroup (g ++ [e]) = some (mergeDup u e) := by
  cases g with
  | nil => simp [specMergeGroup] at h
  | cons s rest =>
    simp only [specMergeGroup, Option.some.injEq] at h
    rw [mergeDup_eq, ← h]
    simp only [List.cons_append, specMergeGroup, Option.some.injEq]
    have hdisc : unionByURL ((s :: (rest ++ [e])).flatMap (fun x => x.discussions))
        = mergeDiscussions
            (unionByURL ((s :: rest).flatMap (fun x => x.discussions)))
            e.discussions := by
      rw [← unionByURL_append]
      simp
    have hprio : (s.isPriority || (rest ++ [e]).any (fun x => x.isPriority))
        = ((s.isPriority || rest.any (fun x => x.isPriority)) || e.isPriority) := by
      simp [List.any_append, Bool.or_assoc]
    rw [hdisc, hprio]
    cases hs : s.isPriority with
    | true => simp
    | false =>
      simp only [Bool.false_or]
      cases hr : rest.any (fun x => x.isPriority) with
      | true =>
        rcases (List.any_eq_true).mp hr with ⟨d, hd, hdp⟩
        have hfind : ∃ d2, rest.find? (fun x => x.isPriority) = some d2 := by
          rcases hfs : rest.find? (fun x => x.isPriority) with _ | d2
          · rw [List.find?_eq_none] at hfs
            exact absurd hdp (by simpa using hfs d hd)
          · exact ⟨d2, hfs⟩
        rcases hfind with ⟨d2, hd2⟩
        rw [List.find?_append, hd2]
        simp
      | false =>
        have hnone : rest.find? (fun x => x.isPriority) = none := by
          rw [List.find?_eq_none]
          intro x hx
          simpa using (List.any_eq_false.mp hr) x hx
        rw [List.find?_append, hnone]
        cases hep : e.isPriority <;> simp [hep]

theorem groupOf_snoc (k : Str) (es : List Entry) (e : Entry) :
    groupOf k (es ++ [e])
      = groupOf k es ++ (if entryKey e = k then [e] else []) := by
  simp only [groupOf, List.filter_append]
  congr 1
  by_cases h : entryKey e = k <;> simp [h]

theorem groupOf_eq_nil_of_not_seen (k : Str) (es : List Entry)
    (h : k ∉ firstSeenKeys es) : groupOf k es = [] := by
  rw [firstSeenKeys, mem_distinctsBy] at h
  push_neg at h
  rw [groupOf, List.filter_eq_nil_iff]
  intro e he
  simpa using h e he

theorem insertEntry_char (es : List Entry) (e : Entry) (acc : List Entry)
    (hnd : (acc.map entryKey).Nodup)
    (hch : ∀ x ∈ acc, specMergeGroup (groupOf (entryKey x) es) = some x)
    (hmem : entryKey e ∈ acc.map entryKey) :
    ∀ y ∈ insertEntry acc e,
      specMergeGroup (groupOf (entryKey y) (es ++ [e])) = some y := by
  induction acc with
  | nil => simp at hmem
  | cons u rest ih =>
    by_cases hk : entryKey u = entryKey e
    · simp only [insertEntry, if_pos hk]
      intro y hy
      rcases List.mem_cons.mp hy with rfl | hy2
      · rw [mergeDup_key, hk, groupOf_snoc, if_pos rfl]
        exact specMerge_snoc _ _ _
          (by rw [← hk]; exact hch u (List.mem_cons_self _ _))
      · have hky : entryKey y ≠ entryKey e := by
          simp only [List.map_cons, List.nodup_cons] at hnd
          intro hcon
          exact hnd.1 (hk ▸ hcon ▸ List.mem_map_of_mem entryKey hy2)
        rw [groupOf_snoc, if_neg (fun hcon => hky hcon.symm), List.append_nil]
        exact hch y (List.mem_cons_of_mem _ hy2)
    · simp only [insertEntry, if_neg hk]
      intro y hy
      rcases List.mem_cons.mp hy with rfl | hy2
      · rw [groupOf_snoc, if_neg (fun hcon => hk hcon.symm), List.append_nil]
        exact hch y (List.mem_cons_self _ _)
      · have hmem2 : entryKey e ∈ rest.map entryKey := by
          rcases List.mem_cons.mp hmem with hcon | h2
          · exact absurd hcon.symm hk
          · exact h2
        exact ih (by simpa using hnd.of_cons)
          (fun x hx => hch x (List.mem_cons_of_mem _ hx)) hmem2 y hy2

theorem dedup_char (es : List Entry) (h : ∀ e ∈ es, UniqDiscussions e) :
    ∀ x ∈ dedup es, specMergeGroup (groupOf (entryKey x) es) = some x := by
  induction es using List.reverseRecOn with
  | nil => simp [dedup]
  | append_singleton es e ih =>
    rw [dedup_snoc]
    have h' : ∀ x ∈ es, UniqDiscussions x :=
      fun x hx => h x (List.mem_append.mpr (Or.inl hx))
    have he : UniqDiscussions e :=
      h e (List.mem_append.mpr (Or.inr (List.mem_singleton.mpr rfl)))
    by_cases hmem : entryKey e ∈ (dedup es).map entryKey
    · exact insertEntry_char es e (dedup es) (dedup_keys_nodup es) (ih h') hmem
    · rw [insertEntry_of_not_mem _ _ hmem]
      intro y hy
      rcases List.mem_append.mp hy with hy2 | hy2
      · have hky : entryKey y ≠ entryKey e := by
          intro hcon
          exact hmem (hcon ▸ List.mem_map_of_mem entryKey hy2)
        rw [groupOf_snoc, if_neg (fun hcon => hky hcon.symm), List.append_nil]
        exact ih h' y hy2
      · rw [List.mem_singleton.mp hy2]
        rw [groupOf_snoc, if_pos rfl,
          groupOf_eq_nil_of_not_seen _ _ (by rwa [dedup_keys] at hmem)]
        exact specMergeGroup_singleton e he

/-- C1: after `Feed.Deduplicate`, entries have pairwise distinct
canonical URLs, listed in first-seen order, and the entry retained for
each canonical URL is the first-seen entry of its duplicate group with
all other fields unchanged, its discussion list the URL-keyed union of
the group's discussion records (first occurrence of a discussion URL
winning), and its priority flag and rank promoted by the first
priority-flagged later duplicate when the first-seen entry was not
itself priority (hypothesis: discussion records are unique by URL
within each input entry, the spec's own Entry invariant). -/
theorem c1_dedup_merge_policy (es : List Entry)
    (h : ∀ e ∈ es, UniqDiscussions e) :
    ((dedup es).map entryKey).Nodup
      ∧ (dedup es).map entryKey = firstSeenKeys es
      ∧ ∀ x ∈ dedup es, specMergeGroup (groupOf (entryKey x) es) = some x :=
  ⟨dedup_keys_nodup es, dedup_keys es, dedup_char es h⟩

/-- Witness for C1 at a concrete two-entry feed whose entries share one
canonical URL (case and trailing-slash variant), the duplicate being
priority-flagged and carrying one discussion. -/
theorem c1_dedup_merge_policy_witness :
    (∀ e ∈ [w1Entry, w2Entry], UniqDiscussions e)
      ∧ (((dedup [w1Entry, w2Entry]).map entryKey).Nodup
        ∧ (dedup [w1Entry, w2Entry]).map entryKey = firstSeenKeys [w1Entry, w2Entry]
        ∧ ∀ x ∈ dedup [w1Entry, w2Entry],
            specMergeGroup (groupOf (entryKey x) [w1Entry, w2Entry]) = some x) :=
  ⟨by decide, c1_dedup_merge_policy [w1Entry, w2Entry] (by decide)⟩

/-! ## Claims C4 and C10 -/

theorem sha256_length (msg : List Nat) : (sha256 msg).length = 32 := by
  simp [sha256, be32]

theorem hexEncode_length (bs : List Nat) : (hexEncode bs).length = 2 * bs.length := by
  induction bs with
  | nil => rfl
  | cons b bs ih =>
    simp only [hexEncode, List.flatMap_cons, List.length_append] at *
    simp [hexByte, ih]
    omega

theorem generateID_length (u : Str) (t : GoTime) : (generateID u t).length = 16 := by
  rw [generateID, hexEncode_length, List.length_take, sha256_length]
  rfl

/-- C4: `GenerateID(u, t)` is the 16-hex-character (8-byte) truncation
of the SHA-256 digest of the original, non-canonicalized URL
concatenated with the RFC3339-formatted timestamp, so it has a fixed
length and depends on the timestamp only through its RFC3339 rendering:
two fetches of the same item at the same timestamp yield the same
identifier. -/
theorem c4_generateID_deterministic (u : Str) (t t2 : GoTime)
    (h : rfc3339 t = rfc3339 t2) :
    generateID u t = hexEncode ((sha256 (utf8Bytes (u ++ rfc3339 t))).take 8)
      ∧ (generateID u t).length = 16
      ∧ generateID u t = generateID u t2 :=
  ⟨rfl, generateID_length u t, by rw [generateID, generateID, h]⟩

/-- Witness for C4 at a concrete URL and timestamp. -/
theorem c4_generateID_deterministic_witness :
    rfc3339 ⟨2026, 2, 3, 4, 5, 6⟩ = rfc3339 ⟨2026, 2, 3, 4, 5, 6⟩
      ∧ (generateID ("http://x.com/1".toList) ⟨2026, 2, 3, 4, 5, 6⟩
            = hexEncode ((sha256 (utf8Bytes (("http://x.com/1".toList)
                ++ rfc3339 ⟨2026, 2, 3, 4, 5, 6⟩))).take 8)
          ∧ (generateID ("http://x.com/1".toList) ⟨2026, 2, 3, 4, 5, 6⟩).length = 16
          ∧ generateID ("http://x.com/1".toList) ⟨2026, 2, 3, 4, 5, 6⟩
              = generateID ("http://x.com/1".toList) ⟨2026, 2, 3, 4, 5, 6⟩) :=
  ⟨rfl, c4_generateID_deterministic ("http://x.com/1".toList)
    ⟨2026, 2, 3, 4, 5, 6⟩ ⟨2026, 2, 3, 4, 5, 6⟩ rfl⟩

/-- C10: every entry `Links.ToEntries` produces is priority-flagged, and
a link whose date is zero (absent) yields an entry dated with the
collection's `Updated` timestamp whose identifier is `GenerateID` over
the link's URL and that fallback date — so the identifier of every
undated priority link is a function of the collection's `Updated`
timestamp. -/
theorem c10_toEntries_fallback (l : PLinks) :
    (∀ e ∈ toEntries l, e.isPriority = true)
      ∧ ∀ lk ∈ l.links,
          plinkToEntry l.updated lk ∈ toEntries l
            ∧ (lk.date.isZero = true →
                (plinkToEntry l.updated lk).date = l.updated
                  ∧ (plinkToEntry l.updated lk).id = generateID lk.url l.updated) := by
  constructor
  · intro e he
    rcases List.mem_map.mp he with ⟨lk, _, rfl⟩
    rfl
  · intro lk hlk
    refine ⟨List.mem_map_of_mem _ hlk, fun hz => ⟨?_, ?_⟩⟩
    · simp [plinkToEntry, hz]
    · simp [plinkToEntry, hz]

/-- Witness for C10 at a concrete undated priority link. -/
theorem c10_toEntries_fallback_witness :
    plinkToEntry wLinks.updated wLink ∈ toEntries wLinks
      ∧ (plinkToEntry wLinks.updated wLink).date = wLinks.updated
      ∧ (plinkToEntry wLinks.updated wLink).id
          = generateID wLink.url wLinks.updated
      ∧ (∀ e ∈ toEntries wLinks, e.isPriority = true) := by
  have h := c10_toEntries_fallback wLinks
  have h2 := h.2 wLink (by decide)
  exact ⟨h2.1, (h2.2 (by decide)).1, (h2.2 (by decide)).2, h.1⟩

/-! ## Claim C2 (corrected) -/

theorem charOfNat_toNat (n : Nat) (h : n < 55296) : (Char.ofNat n).toNat = n := by
  simp [Char.ofNat, Char.toNat, Nat.isValidChar, h, Char.ofNatAux,
    UInt32.toNat, BitVec.toNat_ofNatLt]

theorem char_toNat_inj (a b : Char) (h : a.toNat = b.toNat) : a = b :=
  Char.ext (UInt32.ext h)

theorem lowerChar_eq_slash (c : Char) (h : lowerChar c = '/') : c = '/' := by
  by_cases hc : 65 ≤ c.toNat ∧ c.toNat ≤ 90
  · exfalso
    rw [lowerChar, if_pos hc] at h
    have h1 : (Char.ofNat (c.toNat + 32)).toNat = c.toNat + 32 :=
      charOfNat_toNat _ (by omega)
    rw [h] at h1
    have : ('/').toNat = 47 := rfl
    omega
  · rwa [lowerChar, if_neg hc] at h

theorem dropWhile_head?_not (p : α → Bool) (l : List α) (a : α)
    (h : (l.dropWhile p).head? = some a) : p a = false := by
  induction l with
  | nil => simp at h
  | cons x xs ih =>
    rw [List.dropWhile_cons] at h
    by_cases hp : p x
    · rw [if_pos hp] at h
      exact ih h
    · rw [if_neg hp] at h
      simp only [List.head?_cons, Option.some.injEq] at h
      rw [← h]
      simpa using hp

theorem normalizeURL_no_trailing_slash (u : Str) (c : Char)
    (h : (normalizeURL u).getLast? = some c) : c ≠ '/' := by
  rw [normalizeURL, toLowerStr, trimRightSlash, List.map_reverse,
    List.getLast?_reverse, List.head?_map] at h
  rcases hh : (u.reverse.dropWhile (fun x => x = '/')).head? with _ | c0
  · rw [hh] at h
    simp at h
  · rw [hh] at h
    simp only [Option.map, Option.some.injEq] at h
    have hc0 := dropWhile_head?_not _ _ _ hh
    intro hslash
    rw [← h] at hslash
    have := lowerChar_eq_slash c0 hslash
    simp [this] at hc0

theorem normalizeURL_slash_invariant (u : Str) :
    normalizeURL (u ++ ['/']) = normalizeURL u := by
  have h : trimRightSlash (u ++ ['/']) = trimRightSlash u := by
    rw [trimRightSlash, trimRightSlash, List.reverse_append]
    simp [List.dropWhile_cons]
  rw [normalizeURL, normalizeURL, h]

theorem mem_insertEntry (acc : List Entry) (e x : Entry)
    (h : x ∈ insertEntry acc e) :
    x ∈ acc ∨ x = e ∨ ∃ u ∈ acc, x = mergeDup u e := by
  induction acc with
  | nil =>
    simp only [insertEntry, List.mem_singleton] at h
    exact Or.inr (Or.inl h)
  | cons u rest ih =>
    by_cases hk : entryKey u = entryKey e
    · rw [insertEntry, if_pos hk] at h
      rcases List.mem_cons.mp h with rfl | h2
      · exact Or.inr (Or.inr ⟨u, List.mem_cons_self _ _, rfl⟩)
      · exact Or.inl (List.mem_cons_of_mem _ h2)
    · rw [insertEntry, if_neg hk] at h
      rcases List.mem_cons.mp h with rfl | h2
      · exact Or.inl (List.mem_cons_self _ _)
      · rcases ih h2 with h3 | h3 | ⟨u2, hu2, h3⟩
        · exact Or.inl (List.mem_cons_of_mem _ h3)
        · exact Or.inr (Or.inl h3)
        · exact Or.inr (Or.inr ⟨u2, List.mem_cons_of_mem _ hu2, h3⟩)

theorem dedup_url_from_input (es : List Entry) :
    ∀ x ∈ dedup es, ∃ e ∈ es, x.url = e.url := by
  induction es using List.reverseRecOn with
  | nil => simp [dedup]
  | append_singleton es e ih =>
    rw [dedup_snoc]
    intro x hx
    rcases mem_insertEntry _ _ _ hx with h | h | ⟨u, hu, rfl⟩
    · rcases ih x h with ⟨e2, he2, hurl⟩
      exact ⟨e2, List.mem_append.mpr (Or.inl he2), hurl⟩
    · exact ⟨e, List.mem_append.mpr (Or.inr (List.mem_singleton.mpr rfl)), by rw [h]⟩
    · rcases ih u hu with ⟨e2, he2, hurl⟩
      exact ⟨e2, List.mem_append.mpr (Or.inl he2), by rw [mergeDup_url, hurl]⟩

theorem mergeMap_mem (ex nw : List Entry) (k : Str) (x : Entry)
    (h : mergeMap ex nw k = some x) : x ∈ ex ++ nw :=
  List.mem_of_mem_filter (List.mem_of_mem_getLast? h)

/-- Counterexample to C2: the code strips ALL trailing slashes
(`strings.TrimRight`), so a URL ending in two slashes canonicalizes to a
form with NO trailing slash, not to a form still ending in one slash as
the claim states. -/
theorem c2_counterexample :
    normalizeURL ("http://x.com/1//".toList) = ("http://x.com/1".toList)
      ∧ specCanonicalize ("http://x.com/1//".toList) = ("http://x.com/1/".toList)
      ∧ normalizeURL ("http://x.com/1//".toList)
          ≠ specCanonicalize ("http://x.com/1//".toList) :=
  ⟨by decide, by decide, by decide⟩

/-- C2 (amended): the canonical key used by `Feed.Deduplicate` and the
historical merge lowercases the URL and strips ALL trailing slashes —
the key never ends in a slash and is invariant under appending one —
and the canonical form is only a lookup key: deduplication keeps the
retained entry's stored URL verbatim from the input, and the historical
merge map stores entries unmodified. -/
theorem c2_canonical_key (u : Str) (c : Char) (es ex nw : List Entry)
    (k : Str) (x y : Entry) :
    ((normalizeURL u).getLast? = some c → c ≠ '/')
      ∧ normalizeURL (u ++ ['/']) = normalizeURL u
      ∧ (x ∈ dedup es → ∃ e ∈ es, x.url = e.url)
      ∧ (mergeMap ex nw k = some y → y ∈ ex ++ nw) :=
  ⟨normalizeURL_no_trailing_slash u c, normalizeURL_slash_invariant u,
    fun hx => dedup_url_from_input es x hx, mergeMap_mem ex nw k y⟩

/-- Witness for C2 at concrete inputs. -/
theorem c2_canonical_key_witness :
    (normalizeURL ("http://A.com/x//".toList)).getLast? = some 'x'
      ∧ ('x' : Char) ≠ '/'
      ∧ normalizeURL (("http://A.com/x//".toList) ++ ['/'])
          = normalizeURL ("http://A.com/x//".toList)
      ∧ w1Entry ∈ [w1Entry, w2Entry]
      ∧ (∃ e ∈ [w1Entry, w2Entry],
          ((dedup [w1Entry, w2Entry]).headD baseEntry).url = e.url)
      ∧ mergeMap [archEntry] [freshEntry] (entryKey freshEntry) = some freshEntry
      ∧ freshEntry ∈ [archEntry] ++ [freshEntry] := by
  have h := c2_canonical_key ("http://A.com/x//".toList) 'x'
    [w1Entry, w2Entry] [archEntry] [freshEntry] (entryKey freshEntry)
    ((dedup [w1Entry, w2Entry]).headD baseEntry) freshEntry
  refine ⟨by decide, h.1 (by decide), h.2.1, by decide, ?_, by decide, ?_⟩
  · exact h.2.2.1 (by decide)
  · exact h.2.2.2 (by decide)

/-! ## Claim C3 (corrected) -/

theorem dedup_of_nodup_keys (es : List Entry)
    (h : (es.map entryKey).Nodup) : dedup es = es := by
  induction es using List.reverseRecOn with
  | nil => rfl
  | append_singleton es e ih =>
    rw [List.map_append, List.map_cons, List.map_nil, List.nodup_append] at h
    obtain ⟨h1, _, hdisj⟩ := h
    have hnot : entryKey e ∉ es.map entryKey := by
      intro hmem
      exact hdisj hmem (by simp)
    rw [dedup_snoc, ih h1]
    exact insertEntry_of_not_mem es e hnot

/-- Counterexample to C3: `MergeEntries` replaces the archived entry
wholesale (`byURL[key] = e`), so the archived entry's discussion links
are dropped, not unioned, when its canonical URL is re-fetched. -/
theorem c3_counterexample : ¬ ClaimC3 := by
  intro h
  have h2 := h [archEntry] [freshEntry] archEntry freshEntry
    (by decide) (by decide) (by decide) (by decide) (by decide)
  exact absurd h2 (by decide)

/-- C3 (amended): for every canonical URL fetched in the current run,
the historical merge keeps exactly the LAST current-run entry with that
key, all fields taken from it and the archived entry's discussion links
NOT retained; archived entries whose canonical URL was not re-fetched
are carried through unchanged; and a key-unique merge result passes the
subsequent re-deduplication untouched, so no discussion union happens
there either. -/
theorem c3_merge_new_wins (existing new out : List Entry) (k : Str) :
    (new.filter (fun e => entryKey e = k) ≠ [] →
      mergeMap existing new k = (new.filter (fun e => entryKey e = k)).getLast?)
      ∧ (new.filter (fun e => entryKey e = k) = [] →
        mergeMap existing new k
          = (existing.filter (fun e => entryKey e = k)).getLast?)
      ∧ ((out.map entryKey).Nodup → dedup out = out) := by
  refine ⟨?_, ?_, dedup_of_nodup_keys out⟩
  · intro h
    rw [mergeMap, List.filter_append, List.getLast?_append]
    rcases hb : (new.filter (fun e => entryKey e = k)).getLast? with _ | y
    · rw [List.getLast?_eq_none_iff] at hb
      exact absurd hb h
    · rfl
  · intro h
    rw [mergeMap, List.filter_append, h, List.append_nil]

/-- Witness for C3 (amended) at the concrete archived/fresh pair. -/
theorem c3_merge_new_wins_witness :
    mergeMap [archEntry] [freshEntry] (entryKey freshEntry)
        = ([freshEntry].filter
            (fun e => entryKey e = entryKey freshEntry)).getLast?
      ∧ mergeMap [archEntry] [] (entryKey archEntry)
          = ([archEntry].filter
              (fun e => entryKey e = entryKey archEntry)).getLast?
      ∧ dedup [archEntry, entA] = [archEntry, entA] :=
  ⟨(c3_merge_new_wins [archEntry] [freshEntry] [] _).1 (by decide),
    (c3_merge_new_wins [archEntry] [] [] _).2.1 (by decide),
    (c3_merge_new_wins [] [] [archEntry, entA] []).2.2 (by decide)⟩

/-! ## Claim C5 (corrected) -/

/-- Counterexample to C5: `SortByDate` uses `sort.Slice`, which is
documented as not guaranteed stable; the sort contract allows an output
reversing two equal-date entries, so tie order is not insertion
order. -/
theorem c5_counterexample : ¬ ClaimC5 := by
  intro h
  have h2 := h [entA, entB] [entB, entA] (by decide)
  exact absurd h2.2 (by decide)

/-- C5 (amended): after deduplication and `SortByDate`, the entries are
a permutation of the deduplicated entries in non-increasing
publication-date order; the relative order of equal-date entries is
unspecified (`sort.Slice` is not guaranteed stable). -/
theorem c5_sorted_non_increasing (es out : List Entry)
    (h : SortedRun lessByDate (dedup es) out) :
    out.Perm (dedup es) ∧ NonIncreasing out := by
  refine ⟨h.1.symm, ?_⟩
  have hchain : out.Chain' (fun a b => b.date.toSec ≤ a.date.toSec) := by
    refine h.2.imp ?_
    intro a b hab
    simp only [lessByDate, GoTime.after, decide_eq_false_iff_not, not_lt] at hab
    exact hab
  haveI : IsTrans Entry (fun a b => b.date.toSec ≤ a.date.toSec) :=
    ⟨fun a b c h1 h2 => le_trans h2 h1⟩
  exact (List.chain'_iff_pairwise.mp hchain : out.Pairwise _)

/-- Witness for C5 (amended) at the concrete equal-date pair. -/
theorem c5_sorted_non_increasing_witness :
    SortedRun lessByDate (dedup [entA, entB]) [entB, entA]
      ∧ ([entB, entA].Perm (dedup [entA, entB]) ∧ NonIncreasing [entB, entA]) :=
  ⟨by decide, c5_sorted_non_increasing [entA, entB] [entB, entA] (by decide)⟩

/-! ## Claim C7 (corrected) -/

/-- Counterexample to C7: `by-month/index.json` is sorted by MONTH
descending, not by count; with the younger month holding fewer entries,
every listing the code can produce starts with the smaller count. -/
theorem c7_counterexample : ¬ ClaimC7 := by
  intro h
  have h2 := h.1 c7Entries
    [⟨("2026-02".toList), 1, ("/v1/by-month/2026-02.json".toList)⟩,
     ⟨("2026-01".toList), 2, ("/v1/by-month/2026-01.json".toList)⟩]
    (by decide)
  exact absurd h2 (by decide)

/-- C7 (amended): `by-month/index.json` is ordered by month key
descending; `by-source/index.json` and `by-tag/index.json` are ordered
by entry count descending with no tie-break, the relative order of
equal-count items being unspecified; each listing is a permutation of
one reference row per bucket. -/
theorem c7_index_orderings (es : List Entry) (om : List MonthRef)
    (os : List SourceRef) (ot : List TagRef)
    (hm : IsByMonthIndex es om) (hs : IsBySourceIndex es os)
    (ht : IsByTagIndex es ot) :
    (om.Perm (byMonthRefs es) ∧ om.Pairwise (fun a b => b.month ≤ a.month))
      ∧ (os.Perm (bySourceRefs es) ∧ os.Pairwise (fun a b => b.count ≤ a.count))
      ∧ (ot.Perm (byTagRefs es) ∧ ot.Pairwise (fun a b => b.count ≤ a.count)) := by
  refine ⟨⟨hm.1.symm, ?_⟩, ⟨hs.1.symm, ?_⟩, ⟨ht.1.symm, ?_⟩⟩
  · have hchain : om.Chain' (fun a b => b.month ≤ a.month) := by
      refine hm.2.imp ?_
      intro a b hab
      simp only [monthRefLess, decide_eq_false_iff_not, not_lt] at hab
      exact hab
    haveI : IsTrans MonthRef (fun a b => b.month ≤ a.month) :=
      ⟨fun a b c h1 h2 => le_trans h2 h1⟩
    exact (List.chain'_iff_pairwise.mp hchain : om.Pairwise _)
  · have hchain : os.Chain' (fun a b => b.count ≤ a.count) := by
      refine hs.2.imp ?_
      intro a b hab
      simp only [sourceRefLess, decide_eq_false_iff_not, not_lt] at hab
      exact hab
    haveI : IsTrans SourceRef (fun a b => b.count ≤ a.count) :=
      ⟨fun a b c h1 h2 => le_trans h2 h1⟩
    exact (List.chain'_iff_pairwise.mp hchain : os.Pairwise _)
  · have hchain : ot.Chain' (fun a b => b.count ≤ a.count) := by
      refine ht.2.imp ?_
      intro a b hab
      simp only [tagRefLess, decide_eq_false_iff_not, not_lt] at hab
      exact hab
    haveI : IsTrans TagRef (fun a b => b.count ≤ a.count) :=
      ⟨fun a b c h1 h2 => le_trans h2 h1⟩
    exact (List.chain'_iff_pairwise.mp hchain : ot.Pairwise _)

/-- Witness for C7 (amended) at the concrete three-entry feed. -/
theorem c7_index_orderings_witness :
    IsByMonthIndex c7Entries
        [⟨("2026-02".toList), 1, ("/v1/by-month/2026-02.json".toList)⟩,
         ⟨("2026-01".toList), 2, ("/v1/by-month/2026-01.json".toList)⟩]
      ∧ IsBySourceIndex c7Entries (bySourceRefs c7Entries)
      ∧ IsByTagIndex c7Entries []
      ∧ [(⟨("2026-02".toList), 1, ("/v1/by-month/2026-02.json".toList)⟩ : MonthRef),
         ⟨("2026-01".toList), 2, ("/v1/by-month/2026-01.json".toList)⟩].Pairwise
          (fun a b => b.month ≤ a.month) := by
  have h := c7_index_orderings c7Entries
    [⟨("2026-02".toList), 1, ("/v1/by-month/2026-02.json".toList)⟩,
     ⟨("2026-01".toList), 2, ("/v1/by-month/2026-01.json".toList)⟩]
    (bySourceRefs c7Entries) [] (by decide) (by decide) (by decide)
  exact ⟨by decide, by decide, by decide, h.1.2⟩

/-! ## Claim C6 (corrected) -/

theorem mem_take_sorted_desc (l : List Str) (hl : l.Pairwise (fun a b => b < a))
    (k : Nat) (m : Str) :
    m ∈ l.take k ↔ m ∈ l ∧ l.countP (fun x => decide (m < x)) < k := by
  induction l generalizing k with
  | nil => simp
  | cons a l ih =>
    rcases List.pairwise_cons.mp hl with ⟨ha, hl'⟩
    cases k with
    | zero => simp
    | succ k =>
      rw [List.take_succ_cons]
      by_cases hma : m = a
      · subst hma
        have hz : l.countP (fun x => decide (m < x)) = 0 := by
          rw [List.countP_eq_zero]
          intro x hx
          simpa using not_lt_of_lt (ha x hx)
        rw [List.countP_cons]
        simp [hz]
      · by_cases hml : m ∈ l
        · have hma2 : m < a := ha m hml
          have hc : (a :: l).countP (fun x => decide (m < x))
              = l.countP (fun x => decide (m < x)) + 1 := by
            rw [List.countP_cons]
            simp [hma2]
          rw [hc]
          simp only [List.mem_cons, hma, false_or]
          rw [ih hl' k]
          constructor
          · rintro ⟨h1, h2⟩
            exact ⟨h1, by omega⟩
          · rintro ⟨h1, h2⟩
            exact ⟨h1, by omega⟩
        · simp only [List.mem_cons, hma, false_or]
          constructor
          · intro hmem
            exact absurd (List.mem_of_mem_take hmem) hml
          · rintro ⟨h1, _⟩
            exact absurd h1 hml

theorem sortDescStr_strict (ms : List Str) (hnd : ms.Nodup) :
    (sortDescStr ms).Pairwise (fun a b => b < a) := by
  have hsorted : (sortDescStr ms).Pairwise (fun a b : Str => a ≥ b) :=
    List.sorted_insertionSort _ ms
  have hnds : (sortDescStr ms).Nodup :=
    ((List.perm_insertionSort _ ms).nodup_iff).mpr hnd
  exact (hsorted.and hnds).imp
    (fun h => lt_of_le_of_ne h.1 (Ne.symm h.2))

theorem mem_latestMonthsKeys (n : Int) (es : List Entry) (m : Str) (hn : 0 < n) :
    m ∈ latestMonthsKeys n es ↔ IsTopMonth n es m := by
  have hperm : (sortDescStr (distinctMonths es)).Perm (distinctMonths es) :=
    List.perm_insertionSort _ _
  have hnd : (distinctMonths es).Nodup := nodup_distinctsBy _ _
  have hstrict := sortDescStr_strict (distinctMonths es) hnd
  have hlen : (sortDescStr (distinctMonths es)).length = (distinctMonths es).length :=
    hperm.length_eq
  rw [latestMonthsKeys, IsTopMonth]
  by_cases hcase : 0 < n ∧ n < ((sortDescStr (distinctMonths es)).length : Int)
  · rw [if_pos hcase, mem_take_sorted_desc _ hstrict, hperm.mem_iff,
      hperm.countP_eq]
    have : (distinctMonths es).countP (fun x => decide (m < x)) < n.toNat
        ↔ (((distinctMonths es).countP (fun x => decide (m < x)) : Int)) < n := by
      omega
    rw [this]
  · rw [if_neg hcase, hperm.mem_iff]
    constructor
    · intro hm
      refine ⟨hm, ?_⟩
      have hcnt : (distinctMonths es).countP (fun x => decide (m < x))
          < (distinctMonths es).length := by
        have hle := List.countP_le_length
          (p := fun x => decide (m < x)) (l := distinctMonths es)
        rcases Nat.lt_or_ge ((distinctMonths es).countP (fun x => decide (m < x)))
          (distinctMonths es).length with h | h
        · exact h
        · exfalso
          have heq : (distinctMonths es).countP (fun x => decide (m < x))
              = (distinctMonths es).length := by omega
          have hall := List.countP_eq_length.mp heq
          have := hall m hm
          simp at this
      omega
    · intro hm
      exact hm.1

/-- Counterexample to C6: `feeds/latest.json` is produced by
`api.filterLatestMonths`, which compares entry dates against
`time.Now().AddDate(0, -K, 0)` — a wall-clock cutoff — not against the
K most recent distinct months present in the entry set.  With all
entries years in the past, the window is empty while the claim demands
the two most recent months' entries. -/
theorem c6_counterexample : ¬ ClaimC6 := by
  intro h
  have hiff := (h c6Feed 2 nowC (entMonth 5)).1 (by decide)
  exact absurd (hiff.mpr (by decide)) (by decide)

/-- C6 (amended): for `K ≤ 0`, `feeds/latest.json` holds all entries;
for `K > 0` it holds exactly the entries dated after `now` minus `K`
calendar months (a wall-clock window).  The K-most-recent-distinct-
months semantics is implemented by `monthly.LatestMonths`, which feeds
the `--monthly` latest file: its output holds exactly the entries whose
month key is among the `n` most recent distinct months of the set. -/
theorem c6_latest_window (f : Feed) (K n : Int) (now : GoTime)
    (out : List Entry) (e : Entry) :
    (K ≤ 0 → filterLatestMonths f K now = f)
      ∧ (0 < K → (e ∈ (filterLatestMonths f K now).entries ↔
          e ∈ f.entries ∧ e.date.after (now.addDate 0 (-K) 0) = true))
      ∧ (0 < n → IsLatestMonthsResult f n out →
          (e ∈ out ↔ e ∈ f.entries ∧ IsTopMonth n f.entries (monthKeyOf e.date))) := by
  refine ⟨?_, ?_, ?_⟩
  · intro hK
    rw [filterLatestMonths, if_pos hK]
  · intro hK
    rw [filterLatestMonths, if_neg (by omega)]
    simp [List.mem_filter]
  · intro hn hrun
    rw [← mem_latestMonthsKeys n f.entries (monthKeyOf e.date) hn]
    rw [(hrun.1 : (latestMonthsPre f n).Perm out).mem_iff.symm]
    simp [latestMonthsPre, List.mem_filter]

/-- Witness for C6 (amended) at the concrete five-month feed. -/
theorem c6_latest_window_witness :
    (0 : Int) ≤ 0
      ∧ (0 : Int) < 2
      ∧ IsLatestMonthsResult c6Feed 2 [entMonth 5, entMonth 4]
      ∧ filterLatestMonths c6Feed 0 nowC = c6Feed
      ∧ (entMonth 5 ∈ [entMonth 5, entMonth 4]
          ↔ entMonth 5 ∈ c6Feed.entries
            ∧ IsTopMonth 2 c6Feed.entries (monthKeyOf (entMonth 5).date)) := by
  have h := c6_latest_window c6Feed 0 2 nowC [entMonth 5, entMonth 4] (entMonth 5)
  exact ⟨by decide, by decide, by decide, h.1 (by decide),
    h.2.2 (by decide) (by decide)⟩

/-! ## Claim C8 (corrected) -/

theorem joinSep_append_singleton (sep : Str) (xs : List Str) (y : Str)
    (h : xs ≠ []) :
    joinSep sep (xs ++ [y]) = joinSep sep xs ++ sep ++ y := by
  induction xs with
  | nil => exact absurd rfl h
  | cons x xs ih =>
    cases xs with
    | nil => simp [joinSep]
    | cons x2 xs2 =>
      have step : joinSep sep ((x :: x2 :: xs2) ++ [y])
          = x ++ sep ++ joinSep sep ((x2 :: xs2) ++ [y]) := rfl
      rw [step, ih (by simp)]
      simp [joinSep, List.append_assoc]

theorem renderObj_of_ne_nil (ind : Str) (fields : List (Str × Str))
    (h : fields ≠ []) :
    renderObj ind fields
      = ['\x7b', '\n']
        ++ joinSep (',' :: '\n' :: [])
          (fields.map (fun f => ind ++ (' ' :: ' ' :: []) ++ jstr f.1
            ++ (':' :: ' ' :: []) ++ f.2))
        ++ ('\n' :: ind) ++ ['\x7d'] := by
  cases fields with
  | nil => exact absurd rfl h
  | cons f fs => rfl

theorem feedFields_split (jf : JFeed) (hgen : jf.signalGenerated ≠ [])
    (hper : jf.signalPeriod = []) :
    feedFields jf
      = feedFieldsHead jf
        ++ [(("_signal_generated".toList), jstr jf.signalGenerated)] := by
  have h0 : feedFields jf
      = feedFieldsHead jf
        ++ optStrField ("_signal_generated".toList) jf.signalGenerated
        ++ optStrField ("_signal_period".toList) jf.signalPeriod := rfl
  rw [h0, optStrField, if_neg hgen, optStrField, if_pos hper, List.append_nil]

theorem escapeChar_eq_self (c : Char) (h32 : 32 ≤ c.toNat)
    (hq : c.toNat ≠ 34) (hbs : c.toNat ≠ 92) (hlt : c.toNat ≠ 60)
    (hgt : c.toNat ≠ 62) (hamp : c.toNat ≠ 38) (h28 : c.toNat ≠ 8232)
    (h29 : c.toNat ≠ 8233) : escapeChar c = [c] := by
  rw [escapeChar,
    if_neg (fun hh => hq (by rw [hh]; decide)),
    if_neg (fun hh => hbs (by rw [hh]; decide)),
    if_neg (fun hh => by rw [hh] at h32; exact absurd h32 (by decide)),
    if_neg (fun hh => by rw [hh] at h32; exact absurd h32 (by decide)),
    if_neg (fun hh => by rw [hh] at h32; exact absurd h32 (by decide)),
    if_neg (by omega),
    if_neg (fun hh => hlt (by rw [hh]; decide)),
    if_neg (fun hh => hgt (by rw [hh]; decide)),
    if_neg (fun hh => hamp (by rw [hh]; decide)),
    if_neg h28, if_neg h29]

theorem mem_natDigitsAux (fuel n : Nat) (acc : List Nat) (d : Nat)
    (h : d ∈ natDigitsAux fuel n acc) : d ∈ acc ∨ d < 10 := by
  induction fuel generalizing n acc with
  | zero =>
    cases n with
    | zero => rw [natDigitsAux] at h; exact Or.inl h
    | succ m => rw [natDigitsAux] at h; exact Or.inl h
  | succ fuel ih =>
    cases n with
    | zero => rw [natDigitsAux] at h; exact Or.inl h
    | succ m =>
      rw [natDigitsAux] at h
      rcases ih _ _ h with h2 | h2
      · rcases List.mem_cons.mp h2 with rfl | h3
        · exact Or.inr (Nat.mod_lt _ (by omega))
        · exact Or.inl h3
      · exact Or.inr h2

theorem mem_padNum_bounds (w : Nat) (n : Int) (c : Char) (h : c ∈ padNum w n) :
    48 ≤ c.toNat ∧ c.toNat ≤ 57 := by
  rw [padNum] at h
  rcases List.mem_append.mp h with h | h
  · rw [List.eq_of_mem_replicate h]
    exact ⟨by decide, by decide⟩
  · rcases List.mem_map.mp h with ⟨d, hd, rfl⟩
    have hlt : d % 10 < 10 := Nat.mod_lt _ (by omega)
    have htn : (digitChar d).toNat = 48 + d % 10 :=
      charOfNat_toNat _ (by omega)
    omega

theorem escapeChar_padNum (w : Nat) (n : Int) (c : Char) (h : c ∈ padNum w n) :
    escapeChar c = [c] := by
  have hb := mem_padNum_bounds w n c h
  exact escapeChar_eq_self c (by omega) (by omega) (by omega) (by omega)
    (by omega) (by omega) (by omega) (by omega)

theorem escapeJSON_of_plain (s : Str) (h : ∀ c ∈ s, escapeChar c = [c]) :
    escapeJSON s = s := by
  induction s with
  | nil => rfl
  | cons c cs ih =>
    rw [escapeJSON, List.flatMap_cons, h c (List.mem_cons_self _ _)]
    rw [show cs.flatMap escapeChar = escapeJSON cs from rfl,
      ih (fun c2 hc2 => h c2 (List.mem_cons_of_mem _ hc2))]
    rfl

theorem rfc3339_plain (t : GoTime) : ∀ c ∈ rfc3339 t, escapeChar c = [c] := by
  intro c hc
  rw [rfc3339] at hc
  simp only [List.append_assoc, List.mem_append, List.mem_singleton] at hc
  rcases hc with h | h | h | h | h | h | h | h | h | h | h | h
  · exact escapeChar_padNum _ _ _ h
  · rw [h]; rfl
  · exact escapeChar_padNum _ _ _ h
  · rw [h]; rfl
  · exact escapeChar_padNum _ _ _ h
  · rw [h]; rfl
  · exact escapeChar_padNum _ _ _ h
  · rw [h]; rfl
  · exact escapeChar_padNum _ _ _ h
  · rw [h]; rfl
  · exact escapeChar_padNum _ _ _ h
  · rw [h]; rfl

theorem escapeJSON_rfc3339 (t : GoTime) : escapeJSON (rfc3339 t) = rfc3339 t :=
  escapeJSON_of_plain _ (rfc3339_plain t)

theorem rfc3339_ne_nil (t : GoTime) : rfc3339 t ≠ [] := by
  rw [rfc3339]
  simp

theorem renderFeed_split (jf : JFeed) (hgen : jf.signalGenerated ≠ [])
    (hper : jf.signalPeriod = []) :
    renderFeed jf = renderPre jf ++ jstr jf.signalGenerated ++ ['\n', '\x7d'] := by
  rw [renderFeed, feedFields_split jf hgen hper,
    renderObj_of_ne_nil _ _ (by simp [feedFieldsHead]), List.map_append]
  simp only [List.map_cons, List.map_nil]
  rw [joinSep_append_singleton _ _ _ (by simp [feedFieldsHead]), renderPre]
  simp [List.append_assoc]

/-- Counterexample to C8: each output file embeds the run's wall-clock
reading as `_signal_generated` (set by `jsonfeed.NewFeed`), so two runs
one second apart write different bytes for `feeds/latest.json` even over
identical feed state. -/
theorem c8_counterexample : ¬ ClaimC8 := by
  intro h
  exact absurd (h emptyFeed 3 ("P".toList) t1C t1C t1C t2C) (by decide)

/-- C8 (amended): over unchanged feed state and a fixed filter instant,
two runs produce `feeds/latest.json` records with identical items (the
entry identifiers and ordering do not depend on the run's clock), but
the rendered files are byte-identical ONLY when the two runs format the
same RFC3339 second: the bytes always differ in the
`_signal_generated` value otherwise. -/
theorem c8_generated_timestamp (f : Feed) (n : Int) (pn : Str)
    (tF tG tG2 : GoTime) (h : rfc3339 tG ≠ rfc3339 tG2) :
    (generateLatestFeed f n pn tF tG).items
        = (generateLatestFeed f n pn tF tG2).items
      ∧ renderFeed (generateLatestFeed f n pn tF tG)
          ≠ renderFeed (generateLatestFeed f n pn tF tG2) := by
  refine ⟨rfl, ?_⟩
  intro heq
  have hg1 : (generateLatestFeed f n pn tF tG).signalGenerated = rfc3339 tG := rfl
  have hg2 : (generateLatestFeed f n pn tF tG2).signalGenerated = rfc3339 tG2 := rfl
  rw [renderFeed_split _ (by rw [hg1]; exact rfc3339_ne_nil tG) rfl,
    renderFeed_split _ (by rw [hg2]; exact rfc3339_ne_nil tG2) rfl] at heq
  have hpre : renderPre (generateLatestFeed f n pn tF tG)
      = renderPre (generateLatestFeed f n pn tF tG2) := rfl
  rw [hg1, hg2, ← hpre] at heq
  rw [List.append_assoc, List.append_assoc] at heq
  have h2 := List.append_cancel_left heq
  have h3 := List.append_cancel_right h2
  rw [jstr, jstr] at h3
  have h4 : escapeJSON (rfc3339 tG) ++ ['"']
      = escapeJSON (rfc3339 tG2) ++ ['"'] := by
    injection h3
  have h5 := List.append_cancel_right h4
  rw [escapeJSON_rfc3339, escapeJSON_rfc3339] at h5
  exact h h5

/-- Witness for C8 (amended) at the empty feed and two clock readings
one second apart. -/
theorem c8_generated_timestamp_witness :
    rfc3339 t1C ≠ rfc3339 t2C
      ∧ ((generateLatestFeed emptyFeed 3 ("P".toList) t1C t1C).items
            = (generateLatestFeed emptyFeed 3 ("P".toList) t1C t2C).items
          ∧ renderFeed (generateLatestFeed emptyFeed 3 ("P".toList) t1C t1C)
              ≠ renderFeed (generateLatestFeed emptyFeed 3 ("P".toList) t1C t2C)) :=
  ⟨by decide, c8_generated_timestamp emptyFeed 3 ("P".toList) t1C t1C t2C (by decide)⟩

/-! ## Claim C9 (corrected) -/

theorem addEntry_foldl (es : List Entry) (f : Feed) :
    es.foldl addEntry f
      = { f with
          entries := f.entries
            ++ es.map (fun e =>
              if e.id = [] then { e with id := generateID e.url e.date } else e) } := by
  induction es generalizing f with
  | nil => simp
  | cons e es ih =>
    rw [List.foldl_cons, ih]
    simp [addEntry, List.append_assoc]

theorem collectResults_foldl (rs : List FetchResult) (acc : Feed × List Str) :
    rs.foldl
      (fun acc r =>
        match r.error with
        | some err => (acc.1, acc.2 ++ [err])
        | none => (r.entries.foldl addEntry acc.1, acc.2))
      acc
      = ({ acc.1 with
            entries := acc.1.entries
              ++ rs.flatMap (fun r =>
                match r.error with
                | some _ => []
                | none => r.entries.map (fun e =>
                    if e.id = [] then { e with id := generateID e.url e.date }
                    else e)) },
          acc.2 ++ rs.filterMap (fun r => r.error)) := by
  induction rs generalizing acc with
  | nil => simp
  | cons r rs ih =>
    rw [List.foldl_cons]
    rcases hr : r.error with _ | err
    · simp only [hr]
      rw [ih, addEntry_foldl]
      simp [hr, List.append_assoc]
    · simp only [hr]
      rw [ih]
      simp [hr, List.append_assoc]

theorem collectResults_spec (now : GoTime) (title : Str) (rs : List FetchResult) :
    (collectResults now title rs).2 = rs.filterMap (fun r => r.error)
      ∧ (collectResults now title rs).1.entries
          = rs.flatMap (fun r =>
              match r.error with
              | some _ => []
              | none => r.entries.map (fun e =>
                  if e.id = [] then { e with id := generateID e.url e.date }
                  else e)) := by
  rw [collectResults, collectResults_foldl]
  exact ⟨rfl, rfl⟩

theorem fetchFeed_missing_url (cfg : AggConfig) (oracle : FetchOracle)
    (now : GoTime) (o : Outline) (h : o.xmlURL = []) :
    (fetchFeed cfg oracle now o).error
      = some (("no XML URL for feed: ".toList) ++ o.title) := by
  rw [fetchFeed, if_pos h]

/-- Counterexample to C9: a source with a missing feed URL is filtered
out by `FlattenFeeds` BEFORE fetching, so the aggregation reports no
error for it at all — not the one error per failing source the claim
demands. -/
theorem c9_counterexample : ¬ ClaimC9 := by
  intro h
  have hflat : flattenOutlines opmlBad.outlines = [] := by
    simp [flattenOutlines, opmlBad, badOutline]
  have hrun : IsFetchAllRun cfg0 oracle0 nowC opmlBad [] [] := by
    refine ⟨[], ?_, ?_, ?_⟩
    · rw [hflat]
      exact List.Perm.nil
    · rfl
    · exact ⟨List.Perm.nil, by simp⟩
  have h2 := h cfg0 oracle0 nowC opmlBad [] []
    (by
      intro x hx
      have hx2 := List.mem_singleton.mp hx
      rw [hx2]
      rfl)
    hrun
  have h3 := h2.1
  rw [show opmlBad.outlines = [badOutline] from rfl] at h3
  rw [List.countP_cons] at h3
  simp [fetchFeed_missing_url cfg0 oracle0 nowC badOutline rfl] at h3

/-- C9 (amended): sources that reach fetching (non-empty feed URL) have
failures isolated — each failing source contributes exactly one error
to the aggregation's error list, and every entry fetched from a
successful source is still represented, by canonical URL, in the final
deduplicated, sorted feed; sources with a missing feed URL are dropped
by `FlattenFeeds` before fetching and contribute nothing, although
`FetchFeed` itself, called directly, does report a missing URL as an
error. -/
theorem c9_error_isolation (cfg : AggConfig) (oracle : FetchOracle)
    (now : GoTime) (opml : OPML) (entriesOut : List Entry) (errs : List Str)
    (h : IsFetchAllRun cfg oracle now opml entriesOut errs) :
    errs.length
        = (flattenOutlines opml.outlines).countP
            (fun o => ((fetchFeed cfg oracle now o).error).isSome)
      ∧ (∀ o ∈ flattenOutlines opml.outlines,
          (fetchFeed cfg oracle now o).error = none →
          ∀ e ∈ (fetchFeed cfg oracle now o).entries,
            ∃ e2 ∈ entriesOut, entryKey e2 = entryKey e)
      ∧ (∀ o2 : Outline, o2.xmlURL = [] →
          (fetchFeed cfg oracle now o2).error
            = some (("no XML URL for feed: ".toList) ++ o2.title)) := by
  obtain ⟨arrived, hperm, herrs, hsort⟩ := h
  refine ⟨?_, ?_, fun o2 h2 => fetchFeed_missing_url cfg oracle now o2 h2⟩
  · rw [herrs, (collectResults_spec now opml.title arrived).1,
      List.length_filterMap_eq_countP, hperm.countP_eq, List.countP_map]
    rfl
  · intro o ho hok e he
    have hmem : fetchFeed cfg oracle now o ∈ arrived :=
      hperm.mem_iff.mpr (List.mem_map_of_mem _ ho)
    have hkey : entryKey
        (if e.id = [] then { e with id := generateID e.url e.date } else e)
        = entryKey e := by
      split <;> rfl
    have hein : (if e.id = [] then { e with id := generateID e.url e.date } else e)
        ∈ (collectResults now opml.title arrived).1.entries := by
      rw [(collectResults_spec now opml.title arrived).2]
      rw [List.mem_flatMap]
      refine ⟨fetchFeed cfg oracle now o, hmem, ?_⟩
      rw [hok]
      exact List.mem_map_of_mem _ he
    have hkeymem : entryKey e
        ∈ firstSeenKeys (collectResults now opml.title arrived).1.entries := by
      rw [firstSeenKeys, mem_distinctsBy]
      exact ⟨_, hein, hkey⟩
    rw [← dedup_keys] at hkeymem
    rcases List.mem_map.mp hkeymem with ⟨e2, he2, hke2⟩
    exact ⟨e2, hsort.1.mem_iff.mp he2, hke2⟩

/-- Witness for C9 (amended): one fetchable source whose fetch fails
with a parse error, plus the direct `FetchFeed` behaviour on a
URL-less outline. -/
theorem c9_error_isolation_witness :
    IsFetchAllRun cfg0 oracle0 nowC opmlGood []
        [("failed to parse ".toList) ++ goodOutline.xmlURL ++ (": ".toList)]
      ∧ ([("failed to parse ".toList) ++ goodOutline.xmlURL ++ (": ".toList)]).length
          = (flattenOutlines opmlGood.outlines).countP
              (fun o => ((fetchFeed cfg0 oracle0 nowC o).error).isSome)
      ∧ (fetchFeed cfg0 oracle0 nowC badOutline).error
          = some (("no XML URL for feed: ".toList) ++ badOutline.title) := by
  have hflat : flattenOutlines opmlGood.outlines = [goodOutline] := by
    simp [flattenOutlines, opmlGood, goodOutline]
  have hrun : IsFetchAllRun cfg0 oracle0 nowC opmlGood []
      [("failed to parse ".toList) ++ goodOutline.xmlURL ++ (": ".toList)] := by
    refine ⟨[fetchFeed cfg0 oracle0 nowC goodOutline], ?_, ?_, ?_⟩
    · rw [hflat]
      rfl
    · rfl
    · exact ⟨List.Perm.nil, by simp⟩
  have h := c9_error_isolation cfg0 oracle0 nowC opmlGood _ _ hrun
  exact ⟨hrun, h.1, h.2.2 badOutline rfl⟩

end Signal
